import Mathlib

/-!
# EvidencePlatform — verification of the clustering / parsing core

Shallow embedding, in Lean 4, of the parts of the EvidencePlatform backend
(`src/backend/app`) that the specification claims talk about:

* `app/utils/match_keys.py` — `normalize_title`;
* `app/utils/overlap_utils.py` — `extract_year`;
* `app/utils/cluster_builder.py` and `app/utils/overlap_detector.py` —
  the two augmented Union-Find variants, `OverlapDetector.detect`,
  `_richness_score` / `select_representative`;
* `app/services/overlap_service.py` — `_plan_manual_link`,
  `run_within_source_detection` (its persistence effect), and
  `compute_overlap_matrix`;
* `app/parsers/detector.py`, `app/parsers/ris.py`, `app/parsers/base.py` —
  format detection and the tolerant RIS parsing pipeline.

Modelling conventions:

* Python strings are `List Char`; byte decoding (`utf-8-sig → utf-8 →
  latin-1`, CRLF→LF) is the identity on the ASCII, LF-only inputs used in the
  concrete theorems, and is modelled as such.
* `unicodedata.normalize` (NFC/NFKD) is an external library call; it is the
  identity on ASCII text and is modelled as the identity (every concrete
  input below is ASCII).
* The regex character classes `\w`, `\s`, `\d` and `str.lower` are modelled
  at their ASCII meaning, which is exact for the inputs of every concrete
  theorem.
* External libraries (`rispy`, `rapidfuzz`) are modelled explicitly where a
  concrete behaviour is needed (`rispy`: the strict `TAG  - value` tokenizer
  that `app/parsers/ris.py` documents) or abstracted into a function
  parameter where the claim is insensitive to them (`rapidfuzz`).
* Python dicts are modelled as insertion-ordered association lists, or as
  total functions when only lookups matter; Python machine integers do not
  occur in the modelled code (all arithmetic is small-`int`), so `Nat`/`Int`
  are used directly.
-/

namespace EvidencePlatform

/-! ## Shared ASCII models of Python string primitives -/

namespace Py

/-- ASCII model of the regex word class `\w` (`[A-Za-z0-9_]`). -/
def isWordChar (c : Char) : Bool := c.isAlphanum || c == '_'

/-- ASCII model of the regex class `\s` and of the character set stripped by
`str.strip()`: space, tab, newline, carriage return, vertical tab, form
feed. -/
def isSpaceChar (c : Char) : Bool :=
  c == ' ' || c == '\t' || c == '\n' || c == '\r' || c == '\x0b' || c == '\x0c'

/-- ASCII model of `str.lower()` (character-wise). -/
def pyLower (c : Char) : Char :=
  if 65 ≤ c.toNat ∧ c.toNat ≤ 90 then Char.ofNat (c.toNat + 32) else c

/-- `str.strip()`: drop leading and trailing whitespace. -/
def pyStrip (cs : List Char) : List Char :=
  ((cs.dropWhile (fun c => isSpaceChar c)).reverse.dropWhile
    (fun c => isSpaceChar c)).reverse

/-- Helper for `wsTokens`: accumulate the current (reversed) token while
walking the string. -/
def wsTokensAux : List Char → List Char → List (List Char)
  | acc, [] => if acc.isEmpty then [] else [acc.reverse]
  | acc, c :: rest =>
      if isSpaceChar c then
        (if acc.isEmpty then [] else [acc.reverse]) ++ wsTokensAux [] rest
      else wsTokensAux (c :: acc) rest

/-- The maximal runs of non-whitespace characters, in order: the result of
`re.split(r"\s+", s)` up to the empty-string artefacts that `re.split`
produces at a leading/trailing separator or on empty input (callers below
filter those out with `if t`). -/
def wsTokens (cs : List Char) : List (List Char) := wsTokensAux [] cs

/-- `" ".join(tokens)`. -/
def joinSpace : List (List Char) → List Char
  | [] => []
  | [t] => t
  | t :: ts => t ++ ' ' :: joinSpace ts

/-- Every token produced by the splitter is a nonempty run of non-whitespace
characters drawn from the accumulator or the input. -/
theorem wsTokensAux_sound :
    ∀ (cs acc : List Char), (∀ c ∈ acc, isSpaceChar c = false) →
      ∀ t ∈ wsTokensAux acc cs,
        t ≠ [] ∧ ∀ c ∈ t, (c ∈ acc ∨ c ∈ cs) ∧ isSpaceChar c = false := by
  intro cs
  induction cs with
  | nil =>
      intro acc hacc t ht
      simp only [wsTokensAux] at ht
      split at ht
      · simp at ht
      · next hne =>
          simp only [List.mem_singleton] at ht
          subst ht
          refine ⟨by simpa [List.isEmpty_iff] using hne, ?_⟩
          intro c hc
          rw [List.mem_reverse] at hc
          exact ⟨Or.inl hc, hacc c hc⟩
  | cons d rest ih =>
      intro acc hacc t ht
      simp only [wsTokensAux] at ht
      split at ht
      · next hsp =>
          rw [List.mem_append] at ht
          rcases ht with ht | ht
          · split at ht
            · simp at ht
            · next hne =>
                simp only [List.mem_singleton] at ht
                subst ht
                refine ⟨by simpa [List.isEmpty_iff] using hne, ?_⟩
                intro c hc
                rw [List.mem_reverse] at hc
                exact ⟨Or.inl hc, hacc c hc⟩
          · obtain ⟨hne, hchars⟩ := ih [] (by simp) t ht
            refine ⟨hne, ?_⟩
            intro c hc
            obtain ⟨hmem, hnsp⟩ := hchars c hc
            rcases hmem with h | h
            · simp at h
            · exact ⟨Or.inr (List.mem_cons_of_mem _ h), hnsp⟩
      · next hsp =>
          simp only [Bool.not_eq_true] at hsp
          obtain ⟨hne, hchars⟩ := ih (d :: acc)
            (by
              intro c hc
              rcases List.mem_cons.mp hc with rfl | hc
              · exact hsp
              · exact hacc c hc) t ht
          refine ⟨hne, ?_⟩
          intro c hc
          obtain ⟨hmem, hnsp⟩ := hchars c hc
          rcases hmem with h | h
          · rcases List.mem_cons.mp h with rfl | h
            · exact ⟨Or.inr (List.mem_cons_self _ _), hnsp⟩
            · exact ⟨Or.inl h, hnsp⟩
          · exact ⟨Or.inr (List.mem_cons_of_mem _ h), hnsp⟩

theorem wsTokens_sound {cs : List Char} {t : List Char} (ht : t ∈ wsTokens cs) :
    t ≠ [] ∧ ∀ c ∈ t, c ∈ cs ∧ isSpaceChar c = false := by
  obtain ⟨hne, hchars⟩ := wsTokensAux_sound cs [] (by simp) t ht
  refine ⟨hne, fun c hc => ?_⟩
  obtain ⟨hmem, hnsp⟩ := hchars c hc
  rcases hmem with h | h
  · simp at h
  · exact ⟨h, hnsp⟩

/-- Walking a run of non-whitespace characters only grows the accumulator. -/
theorem wsTokensAux_append_nonspace :
    ∀ (t acc cs : List Char), (∀ c ∈ t, isSpaceChar c = false) →
      wsTokensAux acc (t ++ cs) = wsTokensAux (t.reverse ++ acc) cs := by
  intro t
  induction t with
  | nil => intro acc cs _; simp
  | cons d t' ih =>
      intro acc cs ht
      have hd : isSpaceChar d = false := ht d (List.mem_cons_self _ _)
      simp only [List.cons_append, wsTokensAux, hd, Bool.false_eq_true, if_false,
        List.append_eq]
      rw [ih (d :: acc) cs (fun c hc => ht c (List.mem_cons_of_mem _ hc))]
      simp

/-- Splitting the space-joined list of nonempty non-whitespace tokens gives
the tokens back. -/
theorem wsTokens_joinSpace :
    ∀ tokens : List (List Char),
      (∀ t ∈ tokens, t ≠ [] ∧ ∀ c ∈ t, isSpaceChar c = false) →
      wsTokens (joinSpace tokens) = tokens := by
  intro tokens
  induction tokens with
  | nil => intro _; rfl
  | cons t ts ih =>
      intro h
      obtain ⟨hne, hnsp⟩ := h t (List.mem_cons_self _ _)
      cases ts with
      | nil =>
          have h := wsTokensAux_append_nonspace t [] [] hnsp
          simp only [List.append_nil] at h
          show wsTokensAux [] t = [t]
          rw [h]
          simp only [wsTokensAux, List.isEmpty_eq_true, List.reverse_eq_nil_iff]
          rw [if_neg hne]
          simp
      | cons t2 ts' =>
          show wsTokensAux [] (t ++ ' ' :: joinSpace (t2 :: ts')) = t :: t2 :: ts'
          rw [wsTokensAux_append_nonspace t [] _ hnsp]
          have hsp : isSpaceChar ' ' = true := by decide
          simp only [wsTokensAux, hsp, if_true, List.append_nil,
            List.isEmpty_eq_true, List.reverse_eq_nil_iff]
          rw [if_neg hne]
          have := ih (fun u hu => h u (List.mem_cons_of_mem _ hu))
          simp only [wsTokens] at this
          rw [this]
          simp

/-- A character of `" ".join(tokens)` is a space or a token character. -/
theorem joinSpace_mem :
    ∀ (tokens : List (List Char)) (c : Char), c ∈ joinSpace tokens →
      c = ' ' ∨ ∃ t ∈ tokens, c ∈ t := by
  intro tokens
  induction tokens with
  | nil => intro c hc; simp [joinSpace] at hc
  | cons t ts ih =>
      intro c hc
      cases ts with
      | nil =>
          exact Or.inr ⟨t, List.mem_cons_self _ _, hc⟩
      | cons t2 ts' =>
          simp only [joinSpace, List.mem_append, List.mem_cons] at hc
          rcases hc with hc | hc | hc
          · exact Or.inr ⟨t, List.mem_cons_self _ _, hc⟩
          · exact Or.inl hc
          · rcases ih c hc with h | ⟨u, hu, hcu⟩
            · exact Or.inl h
            · exact Or.inr ⟨u, List.mem_cons_of_mem _ hu, hcu⟩

theorem joinSpace_ne_nil {t : List Char} {ts : List (List Char)}
    (h : t ≠ []) : joinSpace (t :: ts) ≠ [] := by
  cases ts with
  | nil => exact h
  | cons t2 ts' =>
      simp only [joinSpace, ne_eq, List.append_eq_nil]
      intro hcon
      exact h hcon.1

theorem joinSpace_head? {t : List Char} {ts : List (List Char)} (h : t ≠ []) :
    (joinSpace (t :: ts)).head? = t.head? := by
  cases ts with
  | nil => rfl
  | cons t2 ts' =>
      show (t ++ ' ' :: joinSpace (t2 :: ts')).head? = t.head?
      cases t with
      | nil => exact absurd rfl h
      | cons c cs => rfl

theorem joinSpace_getLast? :
    ∀ (ts : List (List Char)) (t : List Char), t ≠ [] →
      (∀ u ∈ ts, u ≠ []) →
      (joinSpace (t :: ts)).getLast? = ((t :: ts).getLast (by simp)).getLast? := by
  intro ts
  induction ts with
  | nil => intro t _ _; rfl
  | cons t2 ts' ih =>
      intro t ht hts
      show (t ++ ' ' :: joinSpace (t2 :: ts')).getLast? = _
      have h2 : t2 ≠ [] := hts t2 (List.mem_cons_self _ _)
      have hnn : joinSpace (t2 :: ts') ≠ [] := joinSpace_ne_nil h2
      rw [List.getLast?_append_of_ne_nil _ (by simp)]
      have hcons : (' ' :: joinSpace (t2 :: ts')).getLast? =
          (joinSpace (t2 :: ts')).getLast? := by
        have : (' ' :: joinSpace (t2 :: ts')) = [' '] ++ joinSpace (t2 :: ts') := rfl
        rw [this, List.getLast?_append_of_ne_nil _ hnn]
      rw [hcons, ih t2 h2 (fun u hu => hts u (List.mem_cons_of_mem _ hu))]
      rfl

/-- `strip` fixes a string whose first and last characters are not
whitespace. -/
theorem pyStrip_eq_self {cs : List Char}
    (h1 : ∀ c, cs.head? = some c → isSpaceChar c = false)
    (h2 : ∀ c, cs.getLast? = some c → isSpaceChar c = false) :
    pyStrip cs = cs := by
  unfold pyStrip
  have hdrop : cs.dropWhile (fun c => isSpaceChar c) = cs := by
    cases cs with
    | nil => rfl
    | cons c rest =>
        rw [List.dropWhile_cons, if_neg]
        simp [h1 c rfl]
  rw [hdrop]
  have hdrop2 : cs.reverse.dropWhile (fun c => isSpaceChar c) = cs.reverse := by
    cases hrev : cs.reverse with
    | nil => rfl
    | cons c rest =>
        rw [List.dropWhile_cons, if_neg]
        have : cs.getLast? = some c := by
          rw [← List.head?_reverse, hrev]
          rfl
        simp [h2 c this]
  rw [hdrop2, List.reverse_reverse]

theorem map_fix {l : List Char} {f : Char → Char} (h : ∀ c ∈ l, f c = c) :
    l.map f = l := by
  conv_rhs => rw [← List.map_id l]
  exact List.map_congr_left h

theorem toNat_ofNat_of_valid {n : Nat} (h : n.isValidChar) :
    (Char.ofNat n).toNat = n := by
  rw [Char.ofNat, dif_pos h]
  rfl

theorem pyLower_toNat_of_upper {c : Char} (h : 65 ≤ c.toNat ∧ c.toNat ≤ 90) :
    (pyLower c).toNat = c.toNat + 32 := by
  rw [pyLower, if_pos h]
  exact toNat_ofNat_of_valid (Or.inl (by omega))

/-- `pyLower` never returns an ASCII uppercase letter. -/
theorem pyLower_notUpper (c : Char) :
    ¬(65 ≤ (pyLower c).toNat ∧ (pyLower c).toNat ≤ 90) := by
  by_cases h : 65 ≤ c.toNat ∧ c.toNat ≤ 90
  · rw [pyLower_toNat_of_upper h]
    omega
  · rw [pyLower, if_neg h]
    exact h

/-- `pyLower` fixes anything that is not an ASCII uppercase letter. -/
theorem pyLower_fix {c : Char} (h : ¬(65 ≤ c.toNat ∧ c.toNat ≤ 90)) :
    pyLower c = c := by
  rw [pyLower, if_neg h]

end Py

/-! ## `compute_overlap_matrix` (app/services/overlap_service.py)

`compute_overlap_matrix(source_uuids, cluster_source_sets)` builds an N×N
integer matrix `m` (list of lists, initialised to 0) and, for every cluster
source-set, for every unordered pair of distinct sources of that set that
occur in `source_uuids`, performs `m[a][b] += 1; m[b][a] += 1`.

The matrix contents are modelled as a total function `Nat → Nat → Nat`
(pointwise update is exactly what `m[a][b] += 1` does), materialised to the
`List (List Nat)` return value at the end. Source ids are `Nat` (the claim
is generic in the id type). -/

namespace OverlapService

/-- Model of the Python dict `idx = {sid: i for i, sid in enumerate(source_uuids)}`:
lookup returns the index of the *last* occurrence of `x` (later comprehension
iterations overwrite earlier ones), `none` when absent. -/
def dictIdx (l : List Nat) (x : Nat) : Option Nat :=
  (l.enum.reverse.find? (fun p => p.2 = x)).map (fun p => p.1)

/-- The pair loop `for i in range(len(u)): for j in range(i+1, len(u))`:
all ordered pairs `(u[i], u[j])` with `i < j`. -/
def allPairs : List α → List (α × α)
  | [] => []
  | x :: xs => xs.map (fun y => (x, y)) ++ allPairs xs

/-- One `m[a][b] += 1` update. -/
def bump (m : Nat → Nat → Nat) (a b : Nat) : Nat → Nat → Nat :=
  fun i j => if i = a ∧ j = b then m i j + 1 else m i j

/-- The body of the outer loop of `compute_overlap_matrix`: dedupe the
cluster's source ids present in `idx` (Python: `list({…})`; set order is
arbitrary there, first-occurrence order here — the results proved below hold
for any order) and apply the paired increments for every `i < j` pair. -/
def addCluster (l : List Nat) (m : Nat → Nat → Nat) (source_ids : List Nat) :
    Nat → Nat → Nat :=
  let unique := (source_ids.filter (fun sid => (dictIdx l sid).isSome)).dedup
  (allPairs unique).foldl
    (fun m p =>
      match dictIdx l p.1, dictIdx l p.2 with
      | some a, some b => bump (bump m a b) b a
      | _, _ => m)
    m

/-- `compute_overlap_matrix` (app/services/overlap_service.py, lines 764-784). -/
def compute_overlap_matrix (source_uuids : List Nat)
    (cluster_source_sets : List (List Nat)) : List (List Nat) :=
  let n := source_uuids.length
  let mf := cluster_source_sets.foldl (addCluster source_uuids) (fun _ _ => 0)
  (List.range n).map (fun i => (List.range n).map (fun j => mf i j))

/-- Looking a key up in the dict model returns a position actually holding it. -/
theorem dictIdx_get (l : List Nat) (x : Nat) (i : Nat)
    (h : dictIdx l x = some i) : l[i]? = some x := by
  unfold dictIdx at h
  cases hf : l.enum.reverse.find? (fun p => p.2 = x) with
  | none => simp [hf] at h
  | some p =>
      obtain ⟨a, b⟩ := p
      rw [hf] at h
      simp only [Option.map_some'] at h
      have hai : a = i := by simpa using h
      have hp : b = x := by simpa using List.find?_some hf
      have hmem : (a, b) ∈ l.enum := by
        have := List.mem_of_find?_eq_some hf
        simpa [List.mem_reverse] using this
      have hget := List.mk_mem_enum_iff_getElem?.mp hmem
      rw [← hai, hget, hp]

/-- The dict model is injective: two distinct keys never share an index. -/
theorem dictIdx_inj (l : List Nat) {x y i : Nat}
    (hx : dictIdx l x = some i) (hy : dictIdx l y = some i) : x = y := by
  have h1 := dictIdx_get l x i hx
  have h2 := dictIdx_get l y i hy
  rw [h1] at h2
  exact Option.some_inj.mp h2

/-- Pairs drawn from a duplicate-free list have distinct components. -/
theorem allPairs_ne {l : List α} (hnd : l.Nodup) {p : α × α}
    (hp : p ∈ allPairs l) : p.1 ≠ p.2 := by
  induction l with
  | nil => simp [allPairs] at hp
  | cons x xs ih =>
      simp only [allPairs, List.mem_append, List.mem_map] at hp
      rcases hp with ⟨y, hy, rfl⟩ | hp
      · intro h
        have hxy : x = y := h
        exact (List.nodup_cons.mp hnd).1 (hxy ▸ hy)
      · exact ih (List.nodup_cons.mp hnd).2 hp

/-- The invariant: pointwise symmetric with zero diagonal. -/
def SymZero (m : Nat → Nat → Nat) : Prop :=
  (∀ i j, m i j = m j i) ∧ (∀ i, m i i = 0)

theorem bump_pair_symZero {m : Nat → Nat → Nat} {a b : Nat}
    (hab : a ≠ b) (h : SymZero m) : SymZero (bump (bump m a b) b a) := by
  obtain ⟨hs, hd⟩ := h
  constructor
  · intro i j
    simp only [bump]
    by_cases h1 : i = a ∧ j = b
    · obtain ⟨rfl, rfl⟩ := h1
      simp [hab, Ne.symm hab, hs]
    · by_cases h2 : i = b ∧ j = a
      · obtain ⟨rfl, rfl⟩ := h2
        simp [hab, Ne.symm hab, hs]
      · have h1' : ¬(j = b ∧ i = a) := fun ⟨hj, hi⟩ => h1 ⟨hi, hj⟩
        have h2' : ¬(j = a ∧ i = b) := fun ⟨hj, hi⟩ => h2 ⟨hi, hj⟩
        simp only [if_neg h1, if_neg h2, if_neg h1', if_neg h2']
        exact hs i j
  · intro i
    simp only [bump]
    have h1 : ¬(i = a ∧ i = b) := fun ⟨ha, hb⟩ => hab (ha ▸ hb ▸ rfl)
    have h2 : ¬(i = b ∧ i = a) := fun ⟨hb, ha⟩ => hab (ha ▸ hb ▸ rfl)
    simp only [if_neg h1, if_neg h2]
    exact hd i

theorem addCluster_symZero (l : List Nat) (s : List Nat)
    {m : Nat → Nat → Nat} (h : SymZero m) : SymZero (addCluster l m s) := by
  unfold addCluster
  have hnd : ((s.filter (fun sid => (dictIdx l sid).isSome)).dedup).Nodup :=
    List.nodup_dedup _
  generalize hu : (s.filter (fun sid => (dictIdx l sid).isSome)).dedup = u at hnd
  have key : ∀ (ps : List (Nat × Nat)), (∀ p ∈ ps, p.1 ≠ p.2) →
      ∀ m, SymZero m → SymZero (ps.foldl
        (fun m p =>
          match dictIdx l p.1, dictIdx l p.2 with
          | some a, some b => bump (bump m a b) b a
          | _, _ => m) m) := by
    intro ps
    induction ps with
    | nil => intro _ m hm; exact hm
    | cons p ps ih =>
        intro hps m hm
        simp only [List.foldl_cons]
        apply ih (fun q hq => hps q (List.mem_cons_of_mem _ hq))
        cases ha : dictIdx l p.1 with
        | none => simpa [ha] using hm
        | some a =>
            cases hb : dictIdx l p.2 with
            | none => simpa [ha, hb] using hm
            | some b =>
                simp only [ha, hb]
                have hne : a ≠ b := by
                  intro hEq
                  subst hEq
                  exact hps p (List.mem_cons_self _ _) (dictIdx_inj l ha hb)
                exact bump_pair_symZero hne hm
  exact key _ (fun p hp => allPairs_ne hnd hp) m h

theorem foldl_addCluster_symZero (l : List Nat) (sets : List (List Nat))
    {m : Nat → Nat → Nat} (h : SymZero m) :
    SymZero (sets.foldl (addCluster l) m) := by
  induction sets generalizing m with
  | nil => exact h
  | cons s ss ih =>
      simp only [List.foldl_cons]
      exact ih (addCluster_symZero l s h)

theorem matrix_fun_symZero (l : List Nat) (sets : List (List Nat)) :
    SymZero (sets.foldl (addCluster l) (fun _ _ => 0)) :=
  foldl_addCluster_symZero l sets ⟨fun _ _ => rfl, fun _ => rfl⟩

/-- C9 — `compute_overlap_matrix` returns a symmetric matrix with zero
diagonal: for every ordered list of source ids and every list of per-cluster
source sets, every off-diagonal entry equals its transpose and every
diagonal entry is 0 (entries addressed with `getElem?`; rows exist exactly
for indices below `source_uuids.length`). -/
theorem compute_overlap_matrix_symm_zero_diag
    (uuids : List Nat) (sets : List (List Nat)) (i j : Nat)
    (hi : i < uuids.length) (hj : j < uuids.length) :
    ((compute_overlap_matrix uuids sets)[i]?.bind (fun r => r[j]?)) =
      ((compute_overlap_matrix uuids sets)[j]?.bind (fun r => r[i]?)) ∧
    ((compute_overlap_matrix uuids sets)[i]?.bind (fun r => r[i]?)) = some 0 := by
  have hsym := matrix_fun_symZero uuids sets
  simp only [compute_overlap_matrix, List.getElem?_map, List.getElem?_range hi,
    List.getElem?_range hj, Option.map_some', Option.some_bind]
  constructor
  · rw [hsym.1 i j]
  · rw [hsym.2 i]

/-- C9 witness: the symmetry/diagonal theorem applied to the concrete call
`compute_overlap_matrix [10, 20] [[10, 20]]` at indices 0 and 1. -/
theorem compute_overlap_matrix_symm_zero_diag_witness :
    ((compute_overlap_matrix [10, 20] [[10, 20]])[0]?.bind (fun r => r[1]?)) =
      ((compute_overlap_matrix [10, 20] [[10, 20]])[1]?.bind (fun r => r[0]?)) ∧
    ((compute_overlap_matrix [10, 20] [[10, 20]])[0]?.bind (fun r => r[0]?)) = some 0 :=
  compute_overlap_matrix_symm_zero_diag [10, 20] [[10, 20]] 0 1
    (by decide) (by decide)

end OverlapService

/-! ## `extract_year` (app/utils/overlap_utils.py)

`_YEAR_RE = re.compile(r"\b(1[89]\d{2}|20\d{2})\b")`;
`extract_year(s)` returns `int(m.group(1))` for the first (leftmost) match of
`_YEAR_RE` in `str(s)`, else `None`.

The regex is embedded as a leftmost scan: both alternatives consume exactly
four characters, so `re.search` finds the smallest position at which the
word-boundary/digit-pattern/word-boundary conditions hold.  `\w` (for `\b`)
and `\d` are modelled at their ASCII meaning. -/

namespace OverlapUtils

open Py (isWordChar)

/-- The regex alternation `1[89]|20` on the two leading characters. -/
def yearHead (c0 c1 : Char) : Bool :=
  (c0 == '1' && (c1 == '8' || c1 == '9')) || (c0 == '2' && c1 == '0')

/-- Numeric value of the four matched digit characters (`int(m.group(1))`). -/
def fourVal (c0 c1 c2 c3 : Char) : Nat :=
  (c0.toNat - 48) * 1000 + (c1.toNat - 48) * 100 + (c2.toNat - 48) * 10 +
    (c3.toNat - 48)

/-- Try to match `(1[89]\d{2}|20\d{2})\b` at the head of the suffix. -/
def matchFour : List Char → Option Nat
  | c0 :: c1 :: c2 :: c3 :: rest =>
      if yearHead c0 c1 && c2.isDigit && c3.isDigit &&
          (match rest with
           | [] => true
           | d :: _ => !isWordChar d) then
        some (fourVal c0 c1 c2 c3)
      else none
  | _ => none

/-- The `\b` assertion before the match: start of string, or the previous
character is not a word character. -/
def boundaryBefore : Option Char → Bool
  | none => true
  | some c => !isWordChar c

/-- Leftmost-match scan of `_YEAR_RE` (`re.search` semantics): try the
pattern at each position, left to right, carrying the previous character for
the leading word-boundary test. -/
def scanYear : Option Char → List Char → Option Nat
  | _, [] => none
  | prev, c :: rest =>
      match (if boundaryBefore prev then matchFour (c :: rest) else none) with
      | some y => some y
      | none => scanYear (some c) rest

/-- `extract_year` (app/utils/overlap_utils.py, lines 37-42), on the string
`str(s)` (a `None` input short-circuits to `None` before the regex runs). -/
def extract_year (cs : List Char) : Option Nat := scanYear none cs

/-- Modelled from the claim's words (not from the source): "the first
4-digit substring of its input that lies in the inclusive range 1800-2099" —
the leftmost window of four digit characters whose value is in range, with
no word-boundary requirement. Used only to exhibit where the source's
word-boundary anchors make `extract_year` differ from this description. -/
def claimedFirstYearSubstring : List Char → Option Nat
  | [] => none
  | c :: rest =>
      match c :: rest with
      | c0 :: c1 :: c2 :: c3 :: _ =>
          if c0.isDigit && c1.isDigit && c2.isDigit && c3.isDigit &&
              decide (1800 ≤ fourVal c0 c1 c2 c3) &&
              decide (fourVal c0 c1 c2 c3 ≤ 2099) then
            some (fourVal c0 c1 c2 c3)
          else claimedFirstYearSubstring rest
      | _ => claimedFirstYearSubstring rest

/-- The declarative reading of one `_YEAR_RE` match at position `i` of `cs`:
a word boundary, four digit characters forming a value `y` with
`1800 ≤ y ≤ 2099`, and a word boundary after. -/
def YearMatchAt (cs : List Char) (i : Nat) (y : Nat) : Prop :=
  (i = 0 ∨ ∃ c, cs[i - 1]? = some c ∧ isWordChar c = false) ∧
  (∃ c0 c1 c2 c3, cs[i]? = some c0 ∧ cs[i + 1]? = some c1 ∧
    cs[i + 2]? = some c2 ∧ cs[i + 3]? = some c3 ∧
    c0.isDigit ∧ c1.isDigit ∧ c2.isDigit ∧ c3.isDigit ∧
    y = fourVal c0 c1 c2 c3 ∧ 1800 ≤ y ∧ y ≤ 2099) ∧
  (cs[i + 4]? = none ∨ ∃ c, cs[i + 4]? = some c ∧ isWordChar c = false)

theorem isDigit_toNat_bounds {c : Char} (h : c.isDigit = true) :
    48 ≤ c.toNat ∧ c.toNat ≤ 57 := by
  unfold Char.isDigit at h
  simp only [Bool.and_eq_true, decide_eq_true_eq] at h
  exact ⟨h.1, h.2⟩

theorem char_eq_of_toNat {c d : Char} (h : c.toNat = d.toNat) : c = d :=
  Char.eq_of_val_eq (UInt32.ext h)

/-- The regex digit pattern `1[89]|20` on digit characters is exactly the
numeric range `[1800, 2099]` of the four-digit value. -/
theorem yearHead_iff_range {c0 c1 c2 c3 : Char}
    (h2 : c2.isDigit = true) (h3 : c3.isDigit = true) :
    (yearHead c0 c1 = true ∧ c2.isDigit = true ∧ c3.isDigit = true) ↔
      (c0.isDigit = true ∧ c1.isDigit = true ∧
        1800 ≤ fourVal c0 c1 c2 c3 ∧ fourVal c0 c1 c2 c3 ≤ 2099) := by
  obtain ⟨h2a, h2b⟩ := isDigit_toNat_bounds h2
  obtain ⟨h3a, h3b⟩ := isDigit_toNat_bounds h3
  constructor
  · rintro ⟨hh, -, -⟩
    simp only [yearHead, Bool.or_eq_true, Bool.and_eq_true, beq_iff_eq] at hh
    rcases hh with ⟨rfl, h1⟩ | ⟨rfl, rfl⟩
    · rcases h1 with rfl | rfl <;>
        exact ⟨rfl, rfl, by unfold fourVal; simp; omega, by unfold fourVal; simp; omega⟩
    · exact ⟨rfl, rfl, by unfold fourVal; simp; omega, by unfold fourVal; simp; omega⟩
  · rintro ⟨h0, h1, hlo, hhi⟩
    obtain ⟨h0a, h0b⟩ := isDigit_toNat_bounds h0
    obtain ⟨h1a, h1b⟩ := isDigit_toNat_bounds h1
    unfold fourVal at hlo hhi
    refine ⟨?_, h2, h3⟩
    have hcase : (c0.toNat = 49 ∧ (c1.toNat = 56 ∨ c1.toNat = 57)) ∨
        (c0.toNat = 50 ∧ c1.toNat = 48) := by omega
    simp only [yearHead, Bool.or_eq_true, Bool.and_eq_true, beq_iff_eq]
    rcases hcase with ⟨hc0, hc1 | hc1⟩ | ⟨hc0, hc1⟩
    · exact Or.inl ⟨char_eq_of_toNat hc0, Or.inl (char_eq_of_toNat hc1)⟩
    · exact Or.inl ⟨char_eq_of_toNat hc0, Or.inr (char_eq_of_toNat hc1)⟩
    · exact Or.inr ⟨char_eq_of_toNat hc0, char_eq_of_toNat hc1⟩

/-- `matchFour` succeeds exactly when the digit-window-and-trailing-boundary
part of a `_YEAR_RE` match holds at the head of the suffix. -/
theorem matchFour_eq_some_iff (l : List Char) (y : Nat) :
    matchFour l = some y ↔
      (∃ c0 c1 c2 c3, l[0]? = some c0 ∧ l[1]? = some c1 ∧
        l[2]? = some c2 ∧ l[3]? = some c3 ∧
        c0.isDigit ∧ c1.isDigit ∧ c2.isDigit ∧ c3.isDigit ∧
        y = fourVal c0 c1 c2 c3 ∧ 1800 ≤ y ∧ y ≤ 2099) ∧
      (l[4]? = none ∨ ∃ c, l[4]? = some c ∧ isWordChar c = false) := by
  match l with
  | [] => simp [matchFour]
  | [c0] => simp [matchFour]
  | [c0, c1] => simp [matchFour]
  | [c0, c1, c2] => simp [matchFour]
  | c0 :: c1 :: c2 :: c3 :: rest =>
      simp only [matchFour]
      constructor
      · intro h
        split at h
        case isTrue hc =>
          simp only [Bool.and_eq_true] at hc
          obtain ⟨⟨⟨hy, hd2⟩, hd3⟩, hb⟩ := hc
          obtain ⟨hd0, hd1, hlo, hhi⟩ := (yearHead_iff_range hd2 hd3).mp ⟨hy, hd2, hd3⟩
          obtain rfl : fourVal c0 c1 c2 c3 = y := by simpa using h
          refine ⟨⟨c0, c1, c2, c3, by simp, by simp, by simp, by simp,
            hd0, hd1, hd2, hd3, rfl, hlo, hhi⟩, ?_⟩
          cases rest with
          | nil => exact Or.inl (by simp)
          | cons d tl =>
              simp only [Bool.not_eq_true'] at hb
              exact Or.inr ⟨d, by simp, hb⟩
        case isFalse => exact absurd h (by simp)
      · rintro ⟨⟨d0, d1, d2, d3, he0, he1, he2, he3, hd0, hd1, hd2, hd3, hyv, hlo, hhi⟩, hb⟩
        obtain rfl : c0 = d0 := by simpa using he0
        obtain rfl : c1 = d1 := by simpa using he1
        obtain rfl : c2 = d2 := by simpa using he2
        obtain rfl : c3 = d3 := by simpa using he3
        subst hyv
        have hy : yearHead c0 c1 = true :=
          ((yearHead_iff_range hd2 hd3).mpr ⟨hd0, hd1, hlo, hhi⟩).1
        cases rest with
        | nil => rw [if_pos (by simp [hy, hd2, hd3])]
        | cons d tl =>
            have hw : isWordChar d = false := by
              rcases hb with hb | ⟨c, hc, hw⟩
              · exact absurd hb (by simp)
              · obtain rfl : d = c := by simpa using hc
                exact hw
            rw [if_pos (by simp [hy, hd2, hd3, hw])]

/-- The leading word-boundary test of the scan, in terms of the full string:
`pre` is the already-scanned prefix. -/
theorem boundaryBefore_iff (pre suf : List Char) :
    boundaryBefore pre.getLast? = true ↔
      (pre.length = 0 ∨
        ∃ c, (pre ++ suf)[pre.length - 1]? = some c ∧ isWordChar c = false) := by
  match pre with
  | [] => simp [boundaryBefore]
  | p :: ps =>
      have hlast : (p :: ps).getLast? = (p :: ps)[(p :: ps).length - 1]? := by
        rw [List.getLast?_eq_getElem?]
      have hidx : (p :: ps).length - 1 < (p :: ps).length := by
        simp
      have happ : ((p :: ps) ++ suf)[(p :: ps).length - 1]? =
          (p :: ps)[(p :: ps).length - 1]? := by
        rw [List.getElem?_append_left hidx]
      cases hg : (p :: ps)[(p :: ps).length - 1]? with
      | none =>
          rw [List.getElem?_eq_none_iff] at hg
          simp only [List.length_cons] at hg
          omega
      | some c =>
          rw [hlast, hg]
          simp only [boundaryBefore, Bool.not_eq_true', happ, hg]
          constructor
          · intro hw
            exact Or.inr ⟨c, rfl, hw⟩
          · rintro (h | ⟨d, hd, hw⟩)
            · simp at h
            · obtain rfl : c = d := by simpa using hd
              exact hw

/-- The scan, started after prefix `pre`, finds `y` exactly when some
position at or beyond `pre.length` matches and no earlier such position
does. -/
theorem scanYear_spec (suf : List Char) :
    ∀ (pre : List Char) (y : Nat),
      scanYear pre.getLast? suf = some y ↔
        ∃ i, YearMatchAt (pre ++ suf) (pre.length + i) y ∧
          ∀ j, j < i → ∀ z, ¬ YearMatchAt (pre ++ suf) (pre.length + j) z := by
  induction suf with
  | nil =>
      intro pre y
      simp only [scanYear, List.append_nil]
      constructor
      · intro h; exact absurd h (by simp)
      · rintro ⟨i, ⟨-, ⟨c0, c1, c2, c3, he0, -⟩, -⟩, -⟩
        have : pre.length + i < pre.length := by
          have := List.getElem?_eq_some_iff.mp he0
          exact this.1
        omega
  | cons c rest ih =>
      intro pre y
      have hmatch : ∀ w : Nat,
          (boundaryBefore pre.getLast? = true ∧ matchFour (c :: rest) = some w) ↔
          YearMatchAt (pre ++ c :: rest) pre.length w := by
        intro w
        unfold YearMatchAt
        rw [matchFour_eq_some_iff, boundaryBefore_iff pre (c :: rest)]
        have idx : ∀ k : Nat, (pre ++ c :: rest)[pre.length + k]? = (c :: rest)[k]? := by
          intro k
          rw [List.getElem?_append_right (by omega)]
          congr 1
          omega
        have idx0 : (pre ++ c :: rest)[pre.length]? = (c :: rest)[0]? := by
          simpa using idx 0
        constructor
        · rintro ⟨hb, ⟨hw, htail⟩⟩
          refine ⟨hb, ?_, ?_⟩
          · obtain ⟨c0, c1, c2, c3, h0, h1, h2, h3, rest'⟩ := hw
            exact ⟨c0, c1, c2, c3, by rw [idx0]; exact h0, by rw [idx 1]; exact h1,
              by rw [idx 2]; exact h2, by rw [idx 3]; exact h3, rest'⟩
          · rcases htail with h | ⟨d, hd, hwd⟩
            · exact Or.inl (by rw [idx 4]; exact h)
            · exact Or.inr ⟨d, by rw [idx 4]; exact hd, hwd⟩
        · rintro ⟨hb, hw, htail⟩
          refine ⟨hb, ?_, ?_⟩
          · obtain ⟨c0, c1, c2, c3, h0, h1, h2, h3, rest'⟩ := hw
            exact ⟨c0, c1, c2, c3, by rw [← idx0]; exact h0, by rw [← idx 1]; exact h1,
              by rw [← idx 2]; exact h2, by rw [← idx 3]; exact h3, rest'⟩
          · rcases htail with h | ⟨d, hd, hwd⟩
            · exact Or.inl (by rw [← idx 4]; exact h)
            · exact Or.inr ⟨d, by rw [← idx 4]; exact hd, hwd⟩
      constructor
      · intro h
        simp only [scanYear] at h
        cases hhead : (if boundaryBefore pre.getLast? then matchFour (c :: rest) else none) with
        | some z =>
            rw [hhead] at h
            have hzy : z = y := by simpa using h
            have hby : boundaryBefore pre.getLast? = true ∧ matchFour (c :: rest) = some y := by
              by_cases hbc : boundaryBefore pre.getLast? = true
              · refine ⟨hbc, ?_⟩
                rw [if_pos hbc] at hhead
                rw [hhead, hzy]
              · rw [if_neg hbc] at hhead; exact absurd hhead (by simp)
            refine ⟨0, by simpa using (hmatch y).mp hby, fun j hj z => (Nat.not_lt_zero j hj).elim⟩
        | none =>
            rw [hhead] at h
            simp only at h
            -- tail scan: reuse ih with prefix pre ++ [c]
            have htail := (ih (pre ++ [c]) y).mp (by
              have : (pre ++ [c]).getLast? = some c := by
                simp [List.getLast?_append]
              rw [this]
              exact h)
            obtain ⟨i, hi, hfirst⟩ := htail
            have hlen : (pre ++ [c]).length = pre.length + 1 := by simp
            have happ : (pre ++ [c]) ++ rest = pre ++ c :: rest := by simp
            rw [happ, hlen] at hi hfirst
            refine ⟨i + 1, by
              have : pre.length + 1 + i = pre.length + (i + 1) := by omega
              rwa [this] at hi, ?_⟩
            intro j hj z
            match j with
            | 0 =>
                intro hcon
                have hby := (hmatch z).mpr (by simpa using hcon)
                rw [if_pos hby.1, hby.2] at hhead
                exact absurd hhead (by simp)
            | j' + 1 =>
                have : pre.length + (j' + 1) = pre.length + 1 + j' := by omega
                rw [this]
                exact hfirst j' (by omega) z
      · rintro ⟨i, hi, hfirst⟩
        simp only [scanYear]
        match i with
        | 0 =>
            have hby := (hmatch y).mpr (by simpa using hi)
            rw [if_pos hby.1, hby.2]
        | i' + 1 =>
            have hnone : (if boundaryBefore pre.getLast? then matchFour (c :: rest) else none) = none := by
              by_cases hbc : boundaryBefore pre.getLast? = true
              · rw [if_pos hbc]
                cases hmf : matchFour (c :: rest) with
                | none => rfl
                | some z =>
                    exact absurd ((hmatch z).mp ⟨hbc, hmf⟩)
                      (by have := hfirst 0 (by omega) z; simpa using this)
              · rw [if_neg hbc]
            rw [hnone]
            simp only
            have hg : (pre ++ [c]).getLast? = some c := by
              simp [List.getLast?_append]
            have hlen : (pre ++ [c]).length = pre.length + 1 := by simp
            have happ : (pre ++ [c]) ++ rest = pre ++ c :: rest := by simp
            have := (ih (pre ++ [c]) y).mpr (by
              rw [hlen, happ]
              refine ⟨i', ?_, ?_⟩
              · have harith : pre.length + 1 + i' = pre.length + (i' + 1) := by omega
                rwa [harith]
              · intro j hj z
                have harith : pre.length + 1 + j = pre.length + (j + 1) := by omega
                rw [harith]
                exact hfirst (j + 1) (by omega) z)
            rwa [hg] at this

/-- C5 (amended) — `extract_year` returns the value of the first 4-digit run
that is delimited by word boundaries (not adjacent to another `\w`
character) and lies in the inclusive range 1800–2099, and `none` when no
such word-bounded run exists; in particular it returns 1800 for "1800" and
2099 for "2099", and `none` for "1799" and "2100". -/
theorem extract_year_first_bounded_year :
    (∀ (cs : List Char) (y : Nat), extract_year cs = some y ↔
      ∃ i, YearMatchAt cs i y ∧ ∀ j, j < i → ∀ z, ¬ YearMatchAt cs j z) ∧
    extract_year "1800".toList = some 1800 ∧
    extract_year "2099".toList = some 2099 ∧
    extract_year "1799".toList = none ∧
    extract_year "2100".toList = none := by
  refine ⟨?_, by decide, by decide, by decide, by decide⟩
  intro cs y
  have h := scanYear_spec cs [] y
  simpa [extract_year] using h

/-- C5 witness: the characterization specialised at the concrete boundary
inputs. -/
theorem extract_year_first_bounded_year_witness :
    extract_year "1800".toList = some 1800 ∧ extract_year "2100".toList = none :=
  ⟨extract_year_first_bounded_year.2.1, extract_year_first_bounded_year.2.2.2.2⟩

/-- C5 counterexample — the claim says `extract_year` returns the first
4-digit substring in range 1800–2099; the input "19999" contains the
in-range 4-digit substring "1999" (as `claimedFirstYearSubstring` computes),
yet `extract_year` returns `none`, because `_YEAR_RE` brackets the group in
`\b…\b` word boundaries and the run "1999" is followed by a further digit. -/
theorem extract_year_claim_counterexample :
    extract_year "19999".toList = none ∧
    claimedFirstYearSubstring "19999".toList = some 1999 := by
  constructor <;> decide

end OverlapUtils

/-! ## `normalize_title` (app/utils/match_keys.py)

```python
text = unicodedata.normalize("NFC", raw)
text = text.lower()
text = _PUNCTUATION_RE.sub(" ", text)        # [^\w\s] → " "
tokens = _WHITESPACE_RE.split(text.strip())  # \s+
tokens = [t for t in tokens if t and t not in _STOP_WORDS]
result = " ".join(tokens)[:200].strip()
return result if result else None
```

`unicodedata.normalize("NFC", ·)` is external and the identity on ASCII (and
on any already-NFC-normal string); it is modelled as the identity.  The
`if t` filter removes the empty-string artefacts of `re.split`, which
`wsTokens` never produces, so the modelled filter only tests stop-word
membership. -/

namespace MatchKeys

open Py

/-- `_STOP_WORDS` (app/utils/match_keys.py, lines 28-33). -/
def stopWords : List (List Char) :=
  ["a", "an", "the", "of", "in", "on", "at", "for", "by",
   "and", "or", "with", "to", "from", "is", "are", "was", "were"].map
    String.toList

/-- `_PUNCTUATION_RE.sub(" ", text)`: every character matching `[^\w\s]`
becomes a single space. -/
def punctToSpace (c : Char) : Char :=
  if !isWordChar c && !isSpaceChar c then ' ' else c

/-- `normalize_title` (app/utils/match_keys.py, lines 39-60).  `None` input
and `""` both short-circuit to `None` (`if not raw`); the input is the raw
title string. -/
def normalize_title (raw : List Char) : Option (List Char) :=
  if raw = [] then none
  else
    let text := raw.map pyLower
    let text := text.map punctToSpace
    let tokens := wsTokens (pyStrip text)
    let tokens := tokens.filter (fun t => !stopWords.contains t)
    let result := pyStrip ((joinSpace tokens).take 200)
    if result = [] then none else some result

/-- Characters of the lowered, punctuation-stripped text are never ASCII
uppercase and are always word-or-whitespace characters. -/
theorem textChar_spec (a : Char) :
    ¬(65 ≤ (punctToSpace (pyLower a)).toNat ∧ (punctToSpace (pyLower a)).toNat ≤ 90) ∧
      (isWordChar (punctToSpace (pyLower a)) = true ∨
        isSpaceChar (punctToSpace (pyLower a)) = true) := by
  have hnu := pyLower_notUpper a
  unfold punctToSpace
  split
  · exact ⟨by decide, Or.inr (by decide)⟩
  · next hcond =>
      simp only [Bool.and_eq_true, Bool.not_eq_true', Bool.not_eq_false] at hcond
      refine ⟨hnu, ?_⟩
      by_cases hw : isWordChar (pyLower a) = true
      · exact Or.inl hw
      · cases hsp : isSpaceChar (pyLower a) with
        | true => exact Or.inr rfl
        | false =>
            exact absurd hcond (by simp [hw, hsp])

/-- `punctToSpace` fixes word and whitespace characters. -/
theorem punctToSpace_fix {c : Char}
    (h : isWordChar c = true ∨ isSpaceChar c = true) : punctToSpace c = c := by
  unfold punctToSpace
  rcases h with h | h <;> simp [h]

/-- C4 (amended) — `normalize_title` is idempotent on every input whose
stop-word-filtered token join stays within the 200-character truncation
limit; at the limit the cut can land inside a token and the second
application then differs (see the counterexample). -/
theorem normalize_title_idempotent_within_limit :
    ∀ raw : List Char,
      (joinSpace ((wsTokens (pyStrip ((raw.map pyLower).map punctToSpace))).filter
        (fun t => !stopWords.contains t))).length ≤ 200 →
      (normalize_title raw).bind normalize_title = normalize_title raw := by
  intro raw hlen
  by_cases hraw : raw = []
  · simp [normalize_title, hraw]
  · set text := (raw.map pyLower).map punctToSpace with htext
    set tokens := (wsTokens (pyStrip text)).filter (fun t => !stopWords.contains t)
      with htokens
    set J := joinSpace tokens with hJ
    have htake : J.take 200 = J := List.take_of_length_le hlen
    -- every token is nonempty with non-whitespace characters from `text`
    have htokprops : ∀ t ∈ tokens, t ≠ [] ∧
        ∀ c ∈ t, c ∈ pyStrip text ∧ isSpaceChar c = false := by
      intro t ht
      exact wsTokens_sound (List.mem_of_mem_filter ht)
    have hfirst : normalize_title raw =
        (if pyStrip (J.take 200) = [] then none
         else some (pyStrip (J.take 200))) := by
      rw [normalize_title, if_neg hraw]
    cases htok : tokens with
    | nil =>
        have hJnil : J = [] := by rw [hJ, htok]; rfl
        have : normalize_title raw = none := by
          rw [hfirst, hJnil]
          simp [pyStrip]
        rw [this]
        rfl
    | cons t0 ts =>
        have hmemtok : ∀ u ∈ t0 :: ts, u ∈ tokens := by
          intro u hu; rw [htok]; exact hu
        have ht0 := htokprops t0 (hmemtok t0 (List.mem_cons_self _ _))
        -- J has non-whitespace first and last characters, so strip fixes it
        have hJne : J ≠ [] := by
          rw [hJ, htok]
          exact joinSpace_ne_nil ht0.1
        have hstripJ : pyStrip J = J := by
          apply pyStrip_eq_self
          · intro c hc
            rw [hJ, htok, joinSpace_head? ht0.1] at hc
            have : c ∈ t0 := List.mem_of_mem_head? hc
            exact (ht0.2 c this).2
          · intro c hc
            rw [hJ, htok] at hc
            rw [joinSpace_getLast? ts t0 ht0.1
              (fun u hu => (htokprops u (hmemtok u (List.mem_cons_of_mem _ hu))).1)] at hc
            have hlastmem : ((t0 :: ts).getLast (by simp)) ∈ (t0 :: ts) :=
              List.getLast_mem _
            have : c ∈ (t0 :: ts).getLast (by simp) := List.mem_of_mem_getLast? hc
            exact ((htokprops _ (hmemtok _ hlastmem)).2 c this).2
        have hres : normalize_title raw = some J := by
          rw [hfirst, htake, hstripJ, if_neg hJne]
        -- characters of J are fixed by lower and punctuation-strip
        have hcharJ : ∀ c ∈ J, pyLower c = c ∧ punctToSpace c = c := by
          intro c hc
          rcases joinSpace_mem tokens c (hJ ▸ hc) with rfl | ⟨t, ht, hct⟩
          · exact ⟨pyLower_fix (by decide), punctToSpace_fix (Or.inr (by decide))⟩
          · have hmem : c ∈ pyStrip text := ((htokprops t ht).2 c hct).1
            have hmemtext : c ∈ text := by
              have h1 : List.Sublist
                  (text.dropWhile (fun c => isSpaceChar c)) text :=
                List.dropWhile_sublist (fun c => isSpaceChar c)
              have h2 : List.Sublist
                  ((text.dropWhile (fun c => isSpaceChar c)).reverse.dropWhile
                    (fun c => isSpaceChar c))
                  (text.dropWhile (fun c => isSpaceChar c)).reverse :=
                List.dropWhile_sublist (fun c => isSpaceChar c)
              have : c ∈ ((text.dropWhile (fun c => isSpaceChar c)).reverse.dropWhile
                  (fun c => isSpaceChar c)).reverse := hmem
              rw [List.mem_reverse] at this
              have := h2.subset this
              rw [List.mem_reverse] at this
              exact h1.subset this
            rw [htext, List.map_map] at hmemtext
            obtain ⟨a, _, rfl⟩ := List.mem_map.mp hmemtext
            obtain ⟨hnu, hws⟩ := textChar_spec a
            exact ⟨pyLower_fix hnu, punctToSpace_fix hws⟩
        have hmap1 : J.map pyLower = J := map_fix (fun c hc => (hcharJ c hc).1)
        have hmap2 : J.map punctToSpace = J := map_fix (fun c hc => (hcharJ c hc).2)
        -- the second pass reproduces the same tokens
        have htokensJ : wsTokens (pyStrip J) = tokens := by
          rw [hstripJ, hJ]
          apply wsTokens_joinSpace
          intro t ht
          exact ⟨(htokprops t ht).1, fun c hc => ((htokprops t ht).2 c hc).2⟩
        have hfilterJ : tokens.filter (fun t => !stopWords.contains t) = tokens := by
          apply List.filter_eq_self.mpr
          intro t ht
          have ht' : t ∈ (wsTokens (pyStrip text)).filter
              (fun t => !stopWords.contains t) := by
            rw [← htokens]; exact ht
          exact @List.of_mem_filter _ (fun u => !stopWords.contains u) t _ ht'
        have hsecond : normalize_title J = some J := by
          have hmap12 : (J.map pyLower).map punctToSpace = J := by
            rw [hmap1]; exact hmap2
          simp only [normalize_title]
          rw [if_neg hJne, hmap12, htokensJ, hfilterJ, ← hJ, htake, hstripJ,
            if_neg hJne]
        rw [hres, Option.some_bind, hsecond]

/-- C4 witness: idempotence applied to the concrete title "The Effects of
Caffeine!", whose normalized join is 16 characters. -/
theorem normalize_title_idempotent_within_limit_witness :
    (normalize_title "The Effects of Caffeine!".toList).bind normalize_title =
      normalize_title "The Effects of Caffeine!".toList :=
  normalize_title_idempotent_within_limit "The Effects of Caffeine!".toList
    (by decide)

/-- The 205-character input whose normalized join is cut at 200 characters,
turning the token "offense" into the stop word "of". -/
def truncationInput : List Char := List.replicate 197 'x' ++ (" offense".toList)

set_option maxRecDepth 4000 in
/-- C4 counterexample — `normalize_title` is not idempotent at the
truncation limit: on 197 `x`s followed by " offense" the first application
yields 197 `x`s followed by " of" (the 200-character cut falls inside
"offense"), and the second application then deletes "of" as a stop word. -/
theorem normalize_title_not_idempotent_at_truncation :
    (normalize_title truncationInput).bind normalize_title ≠
      normalize_title truncationInput := by
  decide

end MatchKeys

/-! ## `OverlapRecord`, `_richness_score`, `select_representative`
(app/utils/overlap_detector.py)

`select_representative(cluster_records)` is `max(cluster_records,
key=_richness_score)`.  CPython's `max` scans left to right and replaces the
current best only when the new key is strictly greater, so on key ties the
*earliest* element wins.  `_richness_score` ends with
`-ord(str(r.record_source_id)[0])` — only the first character of the UUID
string. -/

namespace OverlapDetector

/-- `OverlapRecord` (app/utils/overlap_detector.py, lines 99-115).  UUIDs are
their string forms (`str(uuid)` is how the code compares and sorts them). -/
structure OverlapRecord where
  record_source_id : String
  source_id        : String
  doi              : Option String
  pmid             : Option String
  norm_title       : String
  title_prefix     : String
  year             : Option Int
  first_author     : Option String
  all_author_lasts : List String
  norm_volume      : Option String
  raw_pages        : Option String
  raw_journal      : Option String
  abstract_len     : Nat := 0
  deriving DecidableEq, Inhabited, Repr

/-- Python truthiness of an `Optional[str]` field: `None` and `""` are
falsy. -/
def truthy : Option String → Bool
  | none => false
  | some s => !(s = "")

/-- `_richness_score` (lines 429-438): `(has-doi, has-pmid, has-title,
abstract_len, -ord(str(record_source_id)[0]))`.  The UUID string of a real
record is never empty; the head default is irrelevant. -/
def _richness_score (r : OverlapRecord) : Int × Int × Int × Int × Int :=
  ( if truthy r.doi then 1 else 0,
    if truthy r.pmid then 1 else 0,
    if r.norm_title = "" then 0 else 1,
    (r.abstract_len : Int),
    -(((r.record_source_id.toList.headD '0').toNat : Int)) )

/-- Python tuple comparison `key(x) > key(best)`: strict lexicographic. -/
def scoreGt : Int × Int × Int × Int × Int → Int × Int × Int × Int × Int → Bool
  | (a1, a2, a3, a4, a5), (b1, b2, b3, b4, b5) =>
    if a1 ≠ b1 then a1 > b1
    else if a2 ≠ b2 then a2 > b2
    else if a3 ≠ b3 then a3 > b3
    else if a4 ≠ b4 then a4 > b4
    else a5 > b5

/-- `select_representative` (lines 441-443): CPython `max(l, key=k)` keeps
the earlier element unless a strictly greater key appears.  `max` on an
empty list raises; the detector only calls it on clusters of ≥ 2 members, so
the `[]` arm is unreachable. -/
def select_representative : List OverlapRecord → OverlapRecord
  | [] => default
  | r :: rs =>
      rs.foldl
        (fun best x =>
          if scoreGt (_richness_score x) (_richness_score best) then x else best)
        r

/-- Record with the lexicographically smaller UUID string. -/
def c7recA : OverlapRecord :=
  { record_source_id := "aaaaaaaa-aaaa-4aaa-8aaa-aaaaaaaaaaaa"
    source_id := "11111111-1111-4111-8111-111111111111"
    doi := none, pmid := none
    norm_title := "caffeine and alertness"
    title_prefix := "caffeine and al"
    year := some 2023, first_author := some "smith"
    all_author_lasts := ["smith"], norm_volume := none
    raw_pages := none, raw_journal := none, abstract_len := 120 }

/-- Identical ranking fields, larger UUID string sharing the first
character `a`. -/
def c7recB : OverlapRecord :=
  { record_source_id := "abaaaaaa-aaaa-4aaa-8aaa-aaaaaaaaaaaa"
    source_id := "22222222-2222-4222-8222-222222222222"
    doi := none, pmid := none
    norm_title := "caffeine and alertness"
    title_prefix := "caffeine and al"
    year := some 2023, first_author := some "smith"
    all_author_lasts := ["smith"], norm_volume := none
    raw_pages := none, raw_journal := none, abstract_len := 120 }

/-- C7 — failing input: two members tied on has-DOI, has-PMID, has-title and
abstract length whose UUID strings share their first character.  The
tie-break compares only `ord(str(id)[0])`, so the keys tie completely and
`max` keeps the first list element `c7recB` ("ab…"), although the claim (and
the module's own docstring, line 38) requires the lexicographically smallest
full UUID string "aa…" regardless of input order. -/
theorem select_representative_not_lexicographic :
    select_representative [c7recB, c7recA] = c7recB ∧
    c7recA.record_source_id < c7recB.record_source_id ∧
    _richness_score c7recA = _richness_score c7recB := by
  refine ⟨by decide, ?_, by decide⟩
  rw [String.lt_iff_toList_lt]
  decide

end OverlapDetector

/-! ## `_plan_manual_link` (app/services/overlap_service.py, lines 457-540)

The pure decision function behind `manual_link_records`.  The returned
discriminated dict is modelled as a sum type (`ManualLinkPlan`), as §9 of
the specification itself recommends.  Cluster and record-source UUIDs are
their string forms (the code sorts cluster ids with `key=str`). -/

namespace OverlapService

/-- `MembershipInfo` (lines 447-455). -/
structure MembershipInfo where
  record_source_id : String
  cluster_id       : Option String
  cluster_origin   : Option String
  cluster_locked   : Option Bool
  cluster_scope    : Option String
  deriving DecidableEq, Repr

/-- The discriminated union returned by `_plan_manual_link`. -/
inductive ManualLinkPlan where
  | noop (cluster_id : String)
  | merge (keep_cluster_id delete_cluster_id : String) (origin : String)
      (locked : Bool)
  | create_new (origin : String) (locked : Bool) (member_ids : List String)
  | add_to_existing (cluster_id : String) (new_member_ids : List String)
      (origin : String) (locked : Bool)
  deriving DecidableEq, Repr

/-- `clustered = [m for m in memberships if m.cluster_id is not None]`. -/
def clusteredOf (ms : List MembershipInfo) : List MembershipInfo :=
  ms.filter (fun m => m.cluster_id.isSome)

/-- `unclustered = [m for m in memberships if m.cluster_id is None]`. -/
def unclusteredOf (ms : List MembershipInfo) : List MembershipInfo :=
  ms.filter (fun m => m.cluster_id.isNone)

/-- `cluster_ids = list({m.cluster_id for m in clustered})` — the distinct
cluster ids (Python set order is arbitrary; the branches below depend only
on the count, and the merge branch re-sorts). -/
def clusterIdsOf (ms : List MembershipInfo) : List String :=
  ((clusteredOf ms).filterMap (fun m => m.cluster_id)).dedup

/-- The `new_origin` computation of the add-to-existing branch:
`"mixed" if origin == "auto" else (origin or "mixed")`. -/
def promoteOrigin : Option String → String
  | some o => if o = "auto" then "mixed" else if o = "" then "mixed" else o
  | none => "mixed"

/-- `_plan_manual_link` (lines 457-540). -/
def _plan_manual_link (memberships : List MembershipInfo)
    (locked_param : Bool) : ManualLinkPlan :=
  let all_ids := memberships.map (fun m => m.record_source_id)
  let clustered := clusteredOf memberships
  let unclustered := unclusteredOf memberships
  let cluster_ids := clusterIdsOf memberships
  if cluster_ids.length = 1 ∧ unclustered.length = 0 then
    .noop (cluster_ids.getD 0 "")
  else if cluster_ids.length = 2 ∧ unclustered.length = 0 then
    if (clustered.filter (fun m => m.cluster_locked = some true)).isEmpty then
      let sorted_ids := cluster_ids.insertionSort (fun a b => a ≤ b)
      .merge (sorted_ids.getD 0 "") (sorted_ids.getD 1 "") "mixed" locked_param
    else .create_new "manual" locked_param all_ids
  else if 3 ≤ cluster_ids.length then
    .create_new "manual" locked_param all_ids
  else if cluster_ids.length = 1 ∧ ¬unclustered.isEmpty then
    match clustered with
    | [] => .create_new "manual" locked_param all_ids
      -- unreachable: one distinct cluster id implies a clustered member
    | existing :: _ =>
        if existing.cluster_locked = some true then
          .create_new "manual" locked_param all_ids
        else
          .add_to_existing (existing.cluster_id.getD "")
            (unclustered.map (fun m => m.record_source_id))
            (promoteOrigin existing.cluster_origin) locked_param
  else .create_new "manual" locked_param all_ids

theorem mem_clusterIds_of_mem_clustered {ms : List MembershipInfo}
    {m : MembershipInfo} {c : String} (hm : m ∈ clusteredOf ms)
    (hc : m.cluster_id = some c) : c ∈ clusterIdsOf ms := by
  unfold clusterIdsOf
  rw [List.mem_dedup]
  exact List.mem_filterMap.mpr ⟨m, hm, hc⟩

theorem insertionSort_pair (a b : String) :
    List.insertionSort (fun x y => x ≤ y) [a, b] =
      if a ≤ b then [a, b] else [b, a] := by
  simp only [List.insertionSort, List.orderedInsert]

/-- C3 (amended) — the case analysis of `_plan_manual_link`, with the one
correction the counterexample forces: the `noop` case (all records in
exactly one cluster, none unclustered) takes precedence even when that
cluster is locked; `create_new` is returned for a locked involved cluster
only outside the noop case.  The hypothesis `hcons` says the membership
snapshot is consistent: members of the same cluster report the same locked
flag (true of the SQL join that builds the snapshots). -/
theorem plan_manual_link_cases (ms : List MembershipInfo) (lockedParam : Bool)
    (hcons : ∀ m ∈ ms, ∀ m' ∈ ms, m.cluster_id ≠ none →
      m.cluster_id = m'.cluster_id → m.cluster_locked = m'.cluster_locked) :
    (∀ c, clusterIdsOf ms = [c] → unclusteredOf ms = [] →
      _plan_manual_link ms lockedParam = .noop c) ∧
    (∀ a b, clusterIdsOf ms = [a, b] → unclusteredOf ms = [] →
      (∀ m ∈ clusteredOf ms, m.cluster_locked ≠ some true) →
      _plan_manual_link ms lockedParam =
        .merge (if a ≤ b then a else b) (if a ≤ b then b else a)
          "mixed" lockedParam) ∧
    ((3 ≤ (clusterIdsOf ms).length ∨
        ((∃ m ∈ clusteredOf ms, m.cluster_locked = some true) ∧
          ¬((clusterIdsOf ms).length = 1 ∧ unclusteredOf ms = []))) →
      _plan_manual_link ms lockedParam =
        .create_new "manual" lockedParam (ms.map (fun m => m.record_source_id))) ∧
    (∀ c e es, clusteredOf ms = e :: es → clusterIdsOf ms = [c] →
      unclusteredOf ms ≠ [] → e.cluster_locked ≠ some true →
      _plan_manual_link ms lockedParam =
        .add_to_existing c (unclusteredOf ms |>.map (fun m => m.record_source_id))
          (promoteOrigin e.cluster_origin) lockedParam) := by
  refine ⟨?_, ?_, ?_, ?_⟩
  · -- noop
    intro c hcids huncl
    unfold _plan_manual_link
    rw [if_pos (by simp [hcids, huncl])]
    simp [hcids]
  · -- merge
    intro a b hcids huncl hnolock
    unfold _plan_manual_link
    rw [if_neg (by simp [hcids])]
    rw [if_pos (by simp [hcids, huncl])]
    have hfilter : (clusteredOf ms).filter (fun m => m.cluster_locked = some true) = [] := by
      rw [List.filter_eq_nil_iff]
      intro m hm
      simp [hnolock m hm]
    rw [if_pos (by simp [hfilter])]
    simp only [hcids, insertionSort_pair]
    split <;> rfl
  · -- create_new
    intro hcase
    unfold _plan_manual_link
    rcases hcase with h3 | ⟨⟨m, hm, hml⟩, hnot1⟩
    · rw [if_neg (by omega), if_neg (by omega), if_pos h3]
    · -- some involved cluster is locked, and the noop case does not apply
      obtain ⟨c, hc⟩ : ∃ c, m.cluster_id = some c := by
        have hm' : m ∈ ms.filter (fun m => m.cluster_id.isSome) := hm
        have := List.of_mem_filter hm'
        cases hmc : m.cluster_id with
        | none => rw [hmc] at this; simp at this
        | some c => exact ⟨c, rfl⟩
      have hcmem : c ∈ clusterIdsOf ms := mem_clusterIds_of_mem_clustered hm hc
      have hlen1 : 1 ≤ (clusterIdsOf ms).length :=
        List.length_pos.mpr (List.ne_nil_of_mem hcmem)
      by_cases hlen : (clusterIdsOf ms).length = 1
      · -- single cluster: the unclustered list must be nonempty
        have huncl : ¬unclusteredOf ms = [] := fun h => hnot1 ⟨hlen, h⟩
        rw [if_neg (by simp [hlen]; intro h; exact absurd h huncl)]
        rw [if_neg (by omega), if_neg (by omega)]
        rw [if_pos ⟨hlen, by simpa [List.isEmpty_iff] using huncl⟩]
        -- clustered is nonempty and its head is locked (consistency)
        cases hclus : clusteredOf ms with
        | nil => simp [hclus] at hm
        | cons e es =>
            obtain ⟨ce, hce⟩ : ∃ ce, e.cluster_id = some ce := by
              have he : e ∈ clusteredOf ms := hclus ▸ List.mem_cons_self _ _
              have he' : e ∈ ms.filter (fun m => m.cluster_id.isSome) := he
              have := List.of_mem_filter he'
              cases hec : e.cluster_id with
              | none => rw [hec] at this; simp at this
              | some x => exact ⟨x, rfl⟩
            have he : e ∈ clusteredOf ms := hclus ▸ List.mem_cons_self _ _
            have hcemem : ce ∈ clusterIdsOf ms := mem_clusterIds_of_mem_clustered he hce
            -- both ids live in a length-1 list, hence coincide
            have hsingle : ∀ x ∈ clusterIdsOf ms, ∀ y ∈ clusterIdsOf ms, x = y := by
              cases hl : clusterIdsOf ms with
              | nil => intro x hx; simp at hx
              | cons z zs =>
                  have : zs = [] := by
                    rw [hl] at hlen
                    simpa using hlen
                  subst this
                  intro x hx y hy
                  simp only [List.mem_singleton] at hx hy
                  rw [hx, hy]
            have hcec : ce = c := hsingle ce hcemem c hcmem
            have hsame : m.cluster_locked = e.cluster_locked := by
              apply hcons m (List.mem_of_mem_filter hm) e (List.mem_of_mem_filter he)
              · rw [hc]; simp
              · rw [hc, hce, hcec]
            have helock : e.cluster_locked = some true := by rw [← hsame, hml]
            simp [helock]
      · -- at least two clusters involved
        by_cases hlen2 : (clusterIdsOf ms).length = 2
        · by_cases huncl : unclusteredOf ms = []
          · -- two clusters, nothing unclustered, one locked → second branch
            rw [if_neg (by simp [hlen2]), if_pos (by simp [hlen2, huncl])]
            rw [if_neg]
            simp only [List.isEmpty_eq_true]
            intro hfil
            rw [List.filter_eq_nil_iff] at hfil
            exact absurd hml (by simpa using hfil m hm)
          · -- two clusters with unclustered records → final fall-through
            rw [if_neg (by simp [hlen2]), if_neg (by simp [huncl]),
              if_neg (by omega), if_neg (by simp [hlen2])]
        · -- length ≥ 3
          have h3 : 3 ≤ (clusterIdsOf ms).length := by omega
          rw [if_neg (by omega), if_neg (by omega), if_pos h3]
  · -- add_to_existing
    intro c e es hclus hcids huncl helock
    unfold _plan_manual_link
    rw [if_neg (by simp [hcids]; intro h; exact absurd h huncl)]
    rw [if_neg (by simp [hcids]), if_neg (by simp [hcids])]
    rw [if_pos ⟨by simp [hcids], by simpa [List.isEmpty_iff] using huncl⟩]
    rw [hclus]
    obtain ⟨ce, hce⟩ : ∃ ce, e.cluster_id = some ce := by
      have he : e ∈ clusteredOf ms := hclus ▸ List.mem_cons_self _ _
      have he' : e ∈ ms.filter (fun m => m.cluster_id.isSome) := he
      have := List.of_mem_filter he'
      cases hec : e.cluster_id with
      | none => rw [hec] at this; simp at this
      | some x => exact ⟨x, rfl⟩
    have he : e ∈ clusteredOf ms := hclus ▸ List.mem_cons_self _ _
    have hcemem : ce ∈ clusterIdsOf ms := mem_clusterIds_of_mem_clustered he hce
    have hcec : ce = c := by
      rw [hcids] at hcemem
      simpa using hcemem
    simp only [helock, if_false]
    rw [hce]
    simp [hcec]

/-- C3 witness: the merge clause applied to two records in two distinct
unlocked cross-source clusters "5b3a…cb" and "2a1f…ca" — the plan keeps the
lexicographically smaller id "2a1f…ca" and sets origin "mixed". -/
theorem plan_manual_link_cases_witness :
    _plan_manual_link
      [⟨"r1", some "5b3a…cb", some "auto", some false, some "cross_source"⟩,
       ⟨"r2", some "2a1f…ca", some "auto", some false, some "cross_source"⟩]
      false =
      .merge "2a1f…ca" "5b3a…cb" "mixed" false := by
  have h := (plan_manual_link_cases
    [⟨"r1", some "5b3a…cb", some "auto", some false, some "cross_source"⟩,
     ⟨"r2", some "2a1f…ca", some "auto", some false, some "cross_source"⟩]
    false (by decide)).2.1 "5b3a…cb" "2a1f…ca" (by decide) (by decide) (by decide)
  have hle : ¬(("5b3a…cb" : String) ≤ "2a1f…ca") := by
    rw [String.le_iff_toList_le]; decide
  rw [if_neg hle, if_neg hle] at h
  exact h

/-! ### `run_within_source_detection` (app/services/overlap_service.py, lines 92-168)

The auto within-source pass, modelled as a transformer of the persisted
overlap-cluster table.  The pass:
1. loads the `record_sources` of source S (modelled by their count, the only
   thing the control flow uses: `if len(rs_rows) < 2: return`);
2. runs the detector (its output enters as `detected`, the member lists of
   the detected clusters);
3. deletes the clusters selected by
   `project_id = P ∧ scope = 'within_source' ∧ ∃ member with source_id = S`
   (the join through `overlap_cluster_members`); the `IN (ids)` delete is
   modelled as the predicate filter — `overlap_clusters.id` is a primary
   key, so the two coincide;
4. persists, with scope `'within_source'`, exactly the detected clusters
   whose members carry a single distinct `source_id`. -/

/-- One `overlap_cluster_members` row (`record_source_id`, `source_id`). -/
structure DBClusterMember where
  record_source_id : String
  source_id        : String
  deriving DecidableEq, Repr

/-- One persisted `overlap_clusters` row together with its member rows. -/
structure DBCluster where
  project_id : String
  scope      : String      -- "within_source" | "cross_source"
  members    : List DBClusterMember
  deriving DecidableEq, Repr

/-- The delete-selection predicate of step 3. -/
def withinSourceDeleteTarget (project s : String) (c : DBCluster) : Bool :=
  c.project_id = project && c.scope = "within_source" &&
    c.members.any (fun m => m.source_id = s)

/-- `run_within_source_detection`'s effect on the cluster table. -/
def run_within_source_detection (db : List DBCluster) (project s : String)
    (rs_count : Nat) (detected : List (List DBClusterMember)) :
    List DBCluster :=
  if rs_count < 2 then db
  else
    let survivors := db.filter (fun c => !withinSourceDeleteTarget project s c)
    let fresh := (detected.filter
        (fun cl => ((cl.map (fun m => m.source_id)).dedup).length = 1)).map
      (fun cl => { project_id := project, scope := "within_source",
                   members := cl : DBCluster })
    survivors ++ fresh

/-- C8 — frame property of the auto within-source pass: the pass deletes
only clusters of this project with scope `within_source` containing a
member attributed to S; every `cross_source` cluster (even one touching S)
and every `within_source` cluster without a member from S — in particular
one belonging to a different source — survives unchanged. -/
theorem run_within_source_detection_frame (db : List DBCluster)
    (project s : String) (rs_count : Nat)
    (detected : List (List DBClusterMember)) :
    (∀ c ∈ db, (c.scope = "cross_source" ∨ (∀ m ∈ c.members, m.source_id ≠ s)) →
      c ∈ run_within_source_detection db project s rs_count detected) ∧
    (∀ c ∈ db, c ∉ run_within_source_detection db project s rs_count detected →
      c.project_id = project ∧ c.scope = "within_source" ∧
        ∃ m ∈ c.members, m.source_id = s) := by
  unfold run_within_source_detection
  by_cases hcount : rs_count < 2
  · rw [if_pos hcount]
    exact ⟨fun c hc _ => hc, fun c hc hnot => absurd hc hnot⟩
  · rw [if_neg hcount]
    constructor
    · intro c hc hcase
      apply List.mem_append_left
      apply List.mem_filter.mpr
      refine ⟨hc, ?_⟩
      simp only [withinSourceDeleteTarget, Bool.not_eq_true']
      rcases hcase with hscope | hnos
      · simp [hscope]
      · simp only [Bool.and_eq_false_iff]
        right
        rw [List.any_eq_false]
        intro m hm
        simpa using hnos m hm
    · intro c hc hnot
      have hsurv : c ∉ db.filter (fun c => !withinSourceDeleteTarget project s c) :=
        fun h => hnot (List.mem_append_left _ h)
      have htarget : withinSourceDeleteTarget project s c = true := by
        by_contra hft
        exact hsurv (List.mem_filter.mpr ⟨hc, by simp [hft]⟩)
      simp only [withinSourceDeleteTarget, Bool.and_eq_true, decide_eq_true_eq,
        List.any_eq_true] at htarget
      obtain ⟨⟨hp, hsc⟩, m, hm, hms⟩ := htarget
      exact ⟨hp, hsc, m, hm, by simpa using hms⟩

/-- C8 witness: the frame theorem applied to a concrete table holding one
cross-source cluster that touches source S — the pass leaves it in place. -/
theorem run_within_source_detection_frame_witness :
    (⟨"p1", "cross_source",
      [⟨"r1", "S"⟩, ⟨"r2", "T"⟩]⟩ : DBCluster) ∈
      run_within_source_detection
        [⟨"p1", "cross_source", [⟨"r1", "S"⟩, ⟨"r2", "T"⟩]⟩,
         ⟨"p1", "within_source", [⟨"r3", "S"⟩, ⟨"r4", "S"⟩]⟩]
        "p1" "S" 5 [[⟨"r3", "S"⟩, ⟨"r5", "S"⟩]] :=
  (run_within_source_detection_frame _ "p1" "S" 5 _).1
    _ (List.mem_cons_self _ _) (Or.inl rfl)

def c3lockedM1 : MembershipInfo :=
  ⟨"7c0e…r1", some "5b3a…c1", some "auto", some true, some "cross_source"⟩

def c3lockedM2 : MembershipInfo :=
  ⟨"9d2f…r2", some "5b3a…c1", some "auto", some true, some "cross_source"⟩

/-- C3 counterexample — two records both sitting in one *locked* cluster:
the claim's "returns create_new with origin 'manual' … whenever any involved
cluster is locked" demands `create_new`, but the code's noop case fires
first and returns `noop`. -/
theorem plan_manual_link_locked_noop_counterexample :
    _plan_manual_link [c3lockedM1, c3lockedM2] false = .noop "5b3a…c1" ∧
    (∀ m ∈ [c3lockedM1, c3lockedM2], m.cluster_locked = some true) ∧
    _plan_manual_link [c3lockedM1, c3lockedM2] false ≠
      .create_new "manual" false ["7c0e…r1", "9d2f…r2"] := by
  refine ⟨by decide, by decide, by decide⟩

end OverlapService

/-! ## Augmented Union-Find, dedup variant
(`_UnionFind`, app/utils/cluster_builder.py, lines 82-137)

Per-node dicts keyed by UUID are modelled as total functions on the UUID
strings (the engine only ever touches keys it initialised).  The `find`
loop with path compression terminates because parent links form a forest;
it is modelled with explicit fuel — any fuel at least the length of the
parent chain yields the loop's result, and the per-union characterization
below holds for whatever root `find` returns.  The stored
`score: Optional[float]` is only ever written and read back, never computed
with, and is modelled as `Option Rat`. -/

namespace ClusterBuilder

/-- The state of `_UnionFind.__init__`'s five dicts. -/
structure UF where
  parent : String → String
  rank   : String → Nat
  tier   : String → Nat
  basis  : String → String
  reason : String → String
  score  : String → Option Rat

/-- `_UnionFind(ids)`: every id its own parent, rank 0, tier 0 ("not yet
united"), basis "none". -/
def initUF : UF :=
  { parent := fun x => x, rank := fun _ => 0, tier := fun _ => 0,
    basis := fun _ => "none", reason := fun _ => "", score := fun _ => none }

/-- The body of `find`: `while parent[x] != x: parent[x] = parent[parent[x]];
x = parent[x]`, with fuel bounding the loop. -/
def findAux : Nat → (String → String) → String → (String → String) × String
  | 0, p, x => (p, x)
  | fuel + 1, p, x =>
      if p x = x then (p, x)
      else
        let gp := p (p x)
        let p' := fun y => if y = x then gp else p y
        findAux fuel p' gp

/-- `find` (lines 92-96): returns the updated state and the root. -/
def UF.find (s : UF) (fuel : Nat) (x : String) : UF × String :=
  let r := findAux fuel s.parent x
  ({ s with parent := r.1 }, r.2)

/-- The part of `union` after the two `find` calls (lines 111-129): union
by rank; the *new* root keeps its own tier/basis/reason/score unless the
incoming tier is strictly more specific (or the root had none, tier 0); the
absorbed root's metadata is never consulted. -/
def UF.unionCore (s2 : UF) (ra0 rb0 : String) (tier : Nat)
    (basis reason : String) (score : Option Rat) : UF × Bool :=
  if ra0 = rb0 then (s2, false)
  else
    let ra := if s2.rank ra0 < s2.rank rb0 then rb0 else ra0
    let rb := if s2.rank ra0 < s2.rank rb0 then ra0 else rb0
    let s3 := { s2 with parent := fun y => if y = rb then ra else s2.parent y }
    let s4 :=
      if s3.rank ra = s3.rank rb then
        { s3 with rank := fun y => if y = ra then s3.rank y + 1 else s3.rank y }
      else s3
    let s5 :=
      if tier < s4.tier ra ∨ s4.tier ra = 0 then
        { s4 with tier := fun y => if y = ra then tier else s4.tier y,
                  basis := fun y => if y = ra then basis else s4.basis y,
                  reason := fun y => if y = ra then reason else s4.reason y,
                  score := fun y => if y = ra then score else s4.score y }
      else s4
    (s5, true)

/-- `union` (lines 98-129): two mutating `find`s, then `unionCore` on the
resulting state and roots.  Returns the updated state and whether a merge
occurred. -/
def UF.union (s : UF) (fuel : Nat) (a b : String) (tier : Nat)
    (basis reason : String) (score : Option Rat) : UF × Bool :=
  let fa := s.find fuel a
  let fb := fa.1.find fuel b
  fb.1.unionCore fa.2 fb.2 tier basis reason score

/-- The state after `union(c,d,1); union(a,b,2); union(a,c,3)` — a DOI
(tier 1) merge, a title-year (tier 2) merge, then a fuzzy (tier 3) merge
joining the two pairs. -/
def c2state : UF :=
  (((initUF.union 4 "c" "d" 1 "tier1_doi" "Exact DOI: x" none).1.union
      4 "a" "b" 2 "tier2_title_year" "Exact title + year" none).1.union
    4 "a" "c" 3 "tier3_fuzzy" "Fuzzy title match" none).1

/-- C2 counterexample — after `union(c,d,1); union(a,b,2); union(a,c,3)`
all four nodes form one component rooted at "a", yet the root's recorded
tier is 2, not the component-wide minimum 1: the tier-1 evidence stored at
the absorbed root "c" was discarded (`union` compares the incoming tier
only against the surviving root's own record, cluster_builder.py line 124;
the overlap variant, overlap_detector.py line 201, has the same shape). -/
theorem unionFind_root_tier_not_component_minimum :
    (c2state.find 4 "a").2 = "a" ∧ (c2state.find 4 "b").2 = "a" ∧
    (c2state.find 4 "c").2 = "a" ∧ (c2state.find 4 "d").2 = "a" ∧
    c2state.tier "a" = 2 ∧ Nat.min 1 (Nat.min 2 3) = 1 ∧
    c2state.tier "a" ≠ 1 := by
  refine ⟨by decide, by decide, by decide, by decide, by decide, by decide, by decide⟩

/-- `find` only compresses parent pointers: rank and metadata are
untouched. -/
theorem UF.find_keeps_tier (s : UF) (fuel : Nat) (x : String) :
    ((s.find fuel x).1).tier = s.tier := rfl

theorem UF.find_keeps_rank (s : UF) (fuel : Nat) (x : String) :
    ((s.find fuel x).1).rank = s.rank := rfl

/-- Arithmetic shape of the metadata update. -/
theorem min_formula_of_cond {t v : Nat} (hc : t < v ∨ v = 0) :
    (if v = 0 then t else min t v) = t := by
  by_cases h0 : v = 0
  · rw [if_pos h0]
  · rw [if_neg h0]
    omega

theorem min_formula_of_not_cond {t v : Nat} (hc : ¬(t < v ∨ v = 0)) :
    (if v = 0 then t else min t v) = v := by
  push_neg at hc
  rw [if_neg hc.2]
  omega

/-- Strongest-evidence update of `unionCore`, dedup variant: the surviving
root keeps the more specific of its own previously recorded tier and the
incoming one (tier 0 = nothing recorded yet), and every other node's
record — the absorbed root's included — is untouched. -/
theorem UF.unionCore_tier_min (s2 : UF) (ra0 rb0 : String) (hne : ra0 ≠ rb0)
    (t : Nat) (bs rs : String) (sc : Option Rat) :
    ((s2.unionCore ra0 rb0 t bs rs sc).1.tier
        (if s2.rank ra0 < s2.rank rb0 then rb0 else ra0) =
      (if s2.tier (if s2.rank ra0 < s2.rank rb0 then rb0 else ra0) = 0 then t
       else min t (s2.tier (if s2.rank ra0 < s2.rank rb0 then rb0 else ra0)))) ∧
    (∀ y, y ≠ (if s2.rank ra0 < s2.rank rb0 then rb0 else ra0) →
      (s2.unionCore ra0 rb0 t bs rs sc).1.tier y = s2.tier y) := by
  unfold UF.unionCore
  rw [if_neg hne]
  by_cases hrk : s2.rank ra0 < s2.rank rb0
  · rw [if_pos hrk, if_pos hrk]
    simp only
    by_cases hre : s2.rank rb0 = s2.rank ra0
    · rw [if_pos hre]
      simp only
      by_cases hc : t < s2.tier rb0 ∨ s2.tier rb0 = 0
      · rw [if_pos hc]
        refine ⟨?_, fun y hy => by simp [hy]⟩
        simp [min_formula_of_cond hc]
      · rw [if_neg hc]
        refine ⟨?_, fun y _ => rfl⟩
        simp [min_formula_of_not_cond hc]
    · rw [if_neg hre]
      simp only
      by_cases hc : t < s2.tier rb0 ∨ s2.tier rb0 = 0
      · rw [if_pos hc]
        refine ⟨?_, fun y hy => by simp [hy]⟩
        simp [min_formula_of_cond hc]
      · rw [if_neg hc]
        refine ⟨?_, fun y _ => rfl⟩
        simp [min_formula_of_not_cond hc]
  · rw [if_neg hrk, if_neg hrk]
    simp only
    by_cases hre : s2.rank ra0 = s2.rank rb0
    · rw [if_pos hre]
      simp only
      by_cases hc : t < s2.tier ra0 ∨ s2.tier ra0 = 0
      · rw [if_pos hc]
        refine ⟨?_, fun y hy => by simp [hy]⟩
        simp [min_formula_of_cond hc]
      · rw [if_neg hc]
        refine ⟨?_, fun y _ => rfl⟩
        simp [min_formula_of_not_cond hc]
    · rw [if_neg hre]
      simp only
      by_cases hc : t < s2.tier ra0 ∨ s2.tier ra0 = 0
      · rw [if_pos hc]
        refine ⟨?_, fun y hy => by simp [hy]⟩
        simp [min_formula_of_cond hc]
      · rw [if_neg hc]
        refine ⟨?_, fun y _ => rfl⟩
        simp [min_formula_of_not_cond hc]

end ClusterBuilder

/-! ## Augmented Union-Find, overlap variant
(`_UnionFind`, app/utils/overlap_detector.py, lines 177-212)

Same substrate; the per-root metadata lives in a dict `_tier : root →
(tier, basis, reason)` with missing keys (modelled `Option`), and
`tier_info` falls back to `(5, "unknown", "unknown")`. -/

namespace OverlapDetector

/-- The overlap `_UnionFind` state. -/
structure UFO where
  parent : String → String
  rank   : String → Nat
  tier   : String → Option (Nat × String × String)

def initUFO : UFO :=
  { parent := fun x => x, rank := fun _ => 0, tier := fun _ => none }

/-- `find` (lines 185-189), path compression with fuel as in the dedup
variant. -/
def UFO.find (s : UFO) (fuel : Nat) (x : String) : UFO × String :=
  let r := ClusterBuilder.findAux fuel s.parent x
  ({ s with parent := r.1 }, r.2)

/-- The part of the overlap `union` after the two `find` calls:
`if ra not in self._tier or tier < self._tier[ra][0]: self._tier[ra] =
(tier, basis, reason)`. -/
def UFO.unionCore (s2 : UFO) (ra0 rb0 : String) (tier : Nat)
    (basis reason : String) : UFO :=
  if ra0 = rb0 then s2
  else
    let ra := if s2.rank ra0 < s2.rank rb0 then rb0 else ra0
    let rb := if s2.rank ra0 < s2.rank rb0 then ra0 else rb0
    let s3 := { s2 with parent := fun y => if y = rb then ra else s2.parent y }
    let s4 :=
      if s3.rank ra = s3.rank rb then
        { s3 with rank := fun y => if y = ra then s3.rank y + 1 else s3.rank y }
      else s3
    match s4.tier ra with
    | none => { s4 with tier := fun y => if y = ra then some (tier, basis, reason) else s4.tier y }
    | some t0 =>
        if tier < t0.1 then
          { s4 with tier := fun y => if y = ra then some (tier, basis, reason) else s4.tier y }
        else s4

/-- `union` (lines 191-202). -/
def UFO.union (s : UFO) (fuel : Nat) (a b : String) (tier : Nat)
    (basis reason : String) : UFO :=
  let fa := s.find fuel a
  let fb := fa.1.find fuel b
  fb.1.unionCore fa.2 fb.2 tier basis reason

/-- `tier_info` (lines 211-212). -/
def UFO.tier_info (s : UFO) (root : String) : Nat × String × String :=
  (s.tier root).getD (5, "unknown", "unknown")

/-- `find` only compresses parent pointers (overlap variant). -/
theorem UFO.find_preserves_tier (s : UFO) (fuel : Nat) (x : String) :
    ((s.find fuel x).1).tier = s.tier := rfl

theorem UFO.find_preserves_rank (s : UFO) (fuel : Nat) (x : String) :
    ((s.find fuel x).1).rank = s.rank := rfl

/-- Strongest-evidence update of `unionCore`, overlap variant. -/
theorem UFO.unionCore_tier_update (s2 : UFO) (ra0 rb0 : String) (hne : ra0 ≠ rb0)
    (t : Nat) (bs rs : String) :
    ((s2.unionCore ra0 rb0 t bs rs).tier
        (if s2.rank ra0 < s2.rank rb0 then rb0 else ra0) =
      some (match s2.tier (if s2.rank ra0 < s2.rank rb0 then rb0 else ra0) with
            | none => (t, bs, rs)
            | some t0 => if t < t0.1 then (t, bs, rs) else t0)) ∧
    (∀ y, y ≠ (if s2.rank ra0 < s2.rank rb0 then rb0 else ra0) →
      (s2.unionCore ra0 rb0 t bs rs).tier y = s2.tier y) := by
  unfold UFO.unionCore
  rw [if_neg hne]
  by_cases hrk : s2.rank ra0 < s2.rank rb0
  · rw [if_pos hrk, if_pos hrk]
    simp only
    by_cases hre : s2.rank rb0 = s2.rank ra0
    · rw [if_pos hre]
      simp only
      cases hm : s2.tier rb0 with
      | none =>
          simp only
          refine ⟨by simp, fun y hy => by simp [hy]⟩
      | some t0 =>
          simp only
          by_cases hlt : t < t0.1
          · rw [if_pos hlt, if_pos hlt]
            refine ⟨by simp, fun y hy => by simp [hy]⟩
          · rw [if_neg hlt, if_neg hlt]
            exact ⟨hm, fun y _ => rfl⟩
    · rw [if_neg hre]
      simp only
      cases hm : s2.tier rb0 with
      | none =>
          simp only
          refine ⟨by simp, fun y hy => by simp [hy]⟩
      | some t0 =>
          simp only
          by_cases hlt : t < t0.1
          · rw [if_pos hlt, if_pos hlt]
            refine ⟨by simp, fun y hy => by simp [hy]⟩
          · rw [if_neg hlt, if_neg hlt]
            exact ⟨hm, fun y _ => rfl⟩
  · rw [if_neg hrk, if_neg hrk]
    simp only
    by_cases hre : s2.rank ra0 = s2.rank rb0
    · rw [if_pos hre]
      simp only
      cases hm : s2.tier ra0 with
      | none =>
          simp only
          refine ⟨by simp, fun y hy => by simp [hy]⟩
      | some t0 =>
          simp only
          by_cases hlt : t < t0.1
          · rw [if_pos hlt, if_pos hlt]
            refine ⟨by simp, fun y hy => by simp [hy]⟩
          · rw [if_neg hlt, if_neg hlt]
            exact ⟨hm, fun y _ => rfl⟩
    · rw [if_neg hre]
      simp only
      cases hm : s2.tier ra0 with
      | none =>
          simp only
          refine ⟨by simp, fun y hy => by simp [hy]⟩
      | some t0 =>
          simp only
          by_cases hlt : t < t0.1
          · rw [if_pos hlt, if_pos hlt]
            refine ⟨by simp, fun y hy => by simp [hy]⟩
          · rw [if_neg hlt, if_neg hlt]
            exact ⟨hm, fun y _ => rfl⟩

/-- C2 (amended) — per-union strongest-evidence rule, both Union-Find
variants: when a union merges two distinct roots, the surviving root
(picked by rank) records the most specific (numerically lowest) of *its
own* previously recorded tier and the incoming union's tier — an
unrecorded tier (0 in the dedup variant, a missing key in the overlap
variant) is simply replaced — while the metadata of every other node,
in particular of the absorbed root, is left in place and never folded
into the survivor.  (Hence a component's root need not carry the lowest
tier among all unions that merged its members: see the counterexample.) -/
theorem union_survivor_keeps_own_strongest_tier :
    (∀ (s s1 s2 : ClusterBuilder.UF) (fuel : Nat) (a b ra0 rb0 : String)
        (t : Nat) (bs rs : String) (sc : Option Rat),
      s.find fuel a = (s1, ra0) → s1.find fuel b = (s2, rb0) → ra0 ≠ rb0 →
      ((s.union fuel a b t bs rs sc).1.tier
          (if s.rank ra0 < s.rank rb0 then rb0 else ra0) =
        (if s.tier (if s.rank ra0 < s.rank rb0 then rb0 else ra0) = 0 then t
         else Nat.min t (s.tier (if s.rank ra0 < s.rank rb0 then rb0 else ra0)))) ∧
      (∀ y, y ≠ (if s.rank ra0 < s.rank rb0 then rb0 else ra0) →
        (s.union fuel a b t bs rs sc).1.tier y = s.tier y)) ∧
    (∀ (s s1 s2 : UFO) (fuel : Nat) (a b ra0 rb0 : String)
        (t : Nat) (bs rs : String),
      s.find fuel a = (s1, ra0) → s1.find fuel b = (s2, rb0) → ra0 ≠ rb0 →
      ((s.union fuel a b t bs rs).tier
          (if s.rank ra0 < s.rank rb0 then rb0 else ra0) =
        some (match s.tier (if s.rank ra0 < s.rank rb0 then rb0 else ra0) with
              | none => (t, bs, rs)
              | some t0 => if t < t0.1 then (t, bs, rs) else t0)) ∧
      (∀ y, y ≠ (if s.rank ra0 < s.rank rb0 then rb0 else ra0) →
        (s.union fuel a b t bs rs).tier y = s.tier y)) := by
  constructor
  · intro s s1 s2 fuel a b ra0 rb0 t bs rs sc hfa hfb hne
    have hu : s.union fuel a b t bs rs sc = s2.unionCore ra0 rb0 t bs rs sc := by
      unfold ClusterBuilder.UF.union
      rw [hfa]
      simp only
      rw [hfb]
    have htier : s2.tier = s.tier := by
      have e1 : s1.tier = s.tier := by
        have := ClusterBuilder.UF.find_keeps_tier s fuel a
        rwa [hfa] at this
      have e2 : s2.tier = s1.tier := by
        have := ClusterBuilder.UF.find_keeps_tier s1 fuel b
        rwa [hfb] at this
      rw [e2, e1]
    have hrank : s2.rank = s.rank := by
      have e1 : s1.rank = s.rank := by
        have := ClusterBuilder.UF.find_keeps_rank s fuel a
        rwa [hfa] at this
      have e2 : s2.rank = s1.rank := by
        have := ClusterBuilder.UF.find_keeps_rank s1 fuel b
        rwa [hfb] at this
      rw [e2, e1]
    have h := ClusterBuilder.UF.unionCore_tier_min s2 ra0 rb0 hne t bs rs sc
    rw [htier, hrank, ← hu] at h
    exact h
  · intro s s1 s2 fuel a b ra0 rb0 t bs rs hfa hfb hne
    have hu : s.union fuel a b t bs rs = s2.unionCore ra0 rb0 t bs rs := by
      unfold UFO.union
      rw [hfa]
      simp only
      rw [hfb]
    have htier : s2.tier = s.tier := by
      have e1 : s1.tier = s.tier := by
        have := UFO.find_preserves_tier s fuel a
        rwa [hfa] at this
      have e2 : s2.tier = s1.tier := by
        have := UFO.find_preserves_tier s1 fuel b
        rwa [hfb] at this
      rw [e2, e1]
    have hrank : s2.rank = s.rank := by
      have e1 : s1.rank = s.rank := by
        have := UFO.find_preserves_rank s fuel a
        rwa [hfa] at this
      have e2 : s2.rank = s1.rank := by
        have := UFO.find_preserves_rank s1 fuel b
        rwa [hfb] at this
      rw [e2, e1]
    have h := UFO.unionCore_tier_update s2 ra0 rb0 hne t bs rs
    rw [htier, hrank, ← hu] at h
    exact h

/-- C2 witness: the characterization applied to a fresh two-node dedup
Union-Find — `union("u","v",1,…)` merges the two roots and records tier 1
at the survivor "u". -/
theorem union_survivor_keeps_own_strongest_tier_witness :
    ((ClusterBuilder.initUF.union 2 "u" "v" 1 "tier1_doi" "Exact DOI" none).1.tier
      "u" = 1) := by
  have h := (union_survivor_keeps_own_strongest_tier.1
    ClusterBuilder.initUF _ _ 2 "u" "v" "u" "v" 1 "tier1_doi" "Exact DOI" none
    rfl rfl (by decide)).1
  simpa using h
end OverlapDetector

/-! ## Format detection (app/parsers/detector.py)

`detect_format(file_bytes)` works on the decoded first 4 KiB.  Byte decoding
(`utf-8-sig → utf-8 → latin-1`, CRLF/CR → LF) is the identity on the ASCII
LF-only inputs of the concrete theorems, so the model takes the decoded
text.  The regex searches are embedded as line-start scans. -/

namespace Detector

open Py

/-- `_PROBE_BYTES`. -/
def PROBE_BYTES : Nat := 4096

/-- `\s+-`: at least one whitespace character, then a dash (the regex
backtracks, but `-` is not `\s`, so this equals: skip the whitespace run,
then require `-`). -/
def afterWsDash : List Char → Bool
  | [] => false
  | c :: rest => if c = '-' then true else isSpaceChar c && afterWsDash rest

def wsPlusDash : List Char → Bool
  | [] => false
  | c :: rest => isSpaceChar c && afterWsDash rest

/-- `TY\s+-` at the head of the suffix. -/
def matchTY : List Char → Bool
  | 'T' :: 'Y' :: rest => wsPlusDash rest
  | _ => false

/-- `re.search` for the MULTILINE-anchored `_RIS_RE = ^TY\s+-`: try the
pattern at the start of the text and after every newline. -/
def risSearchAux : Bool → List Char → Bool
  | _, [] => false
  | atStart, c :: rest =>
      (atStart && matchTY (c :: rest)) || risSearchAux (c == '\n') rest

def risSearch (text : List Char) : Bool := risSearchAux true text

/-- `PMID-[ \t]*\d` after the tag: skip spaces/tabs, require a digit. -/
def pmidTail : List Char → Bool
  | [] => false
  | c :: rest => if c.isDigit then true else (c = ' ' || c = '\t') && pmidTail rest

/-- `PMID-[ \t]*\d` at the head of the suffix. -/
def matchPMID : List Char → Bool
  | 'P' :: 'M' :: 'I' :: 'D' :: '-' :: rest => pmidTail rest
  | _ => false

/-- `re.search` for `_MEDLINE_RE = ^PMID-[ \t]*\d` (MULTILINE). -/
def pmidSearchAux : Bool → List Char → Bool
  | _, [] => false
  | atStart, c :: rest =>
      (atStart && matchPMID (c :: rest)) || pmidSearchAux (c == '\n') rest

def pmidSearch (text : List Char) : Bool := pmidSearchAux true text

/-- Match one alternative of `^(AU|TI|AB|DP|MH|FAU|PT)\s+-` at the head of
the suffix, returning the number of characters consumed. -/
def matchMedTagLen (l : List Char) : Option Nat :=
  let tail2 : List Char → Option Nat := fun rest => wsDashLen rest 2
  let tail3 : List Char → Option Nat := fun rest => wsDashLen rest 3
  match l with
  | 'A' :: 'U' :: rest => tail2 rest
  | 'T' :: 'I' :: rest => tail2 rest
  | 'A' :: 'B' :: rest => tail2 rest
  | 'D' :: 'P' :: rest => tail2 rest
  | 'M' :: 'H' :: rest => tail2 rest
  | 'F' :: 'A' :: 'U' :: rest => tail3 rest
  | 'P' :: 'T' :: rest => tail2 rest
  | _ => none
where
  /-- length of `\s+-` at the head, plus the tag length already consumed -/
  wsDashLen : List Char → Nat → Option Nat
    | [], _ => none
    | c :: rest, acc =>
        if c = '-' then none  -- `\s+` needs at least one whitespace first
        else if isSpaceChar c then wsDashRest rest (acc + 1) else none
  wsDashRest : List Char → Nat → Option Nat
    | [], _ => none
    | c :: rest, acc =>
        if c = '-' then some (acc + 1)
        else if isSpaceChar c then wsDashRest rest (acc + 1) else none

/-- `len(_MEDLINE_TAGS_RE.findall(text))`: non-overlapping matches scanning
left to right; after a match the scan resumes past the consumed characters
(whose last is `-`, never a newline). Fuel-driven; `fuel = text.length`
covers every position. -/
def countMedTagsAux : Nat → Bool → List Char → Nat
  | 0, _, _ => 0
  | _, _, [] => 0
  | fuel + 1, atStart, c :: rest =>
      if atStart then
        match matchMedTagLen (c :: rest) with
        | some n => 1 + countMedTagsAux fuel false (List.drop n (c :: rest))
        | none => countMedTagsAux fuel (c == '\n') rest
      else countMedTagsAux fuel (c == '\n') rest

def countMedTags (text : List Char) : Nat :=
  countMedTagsAux text.length true text

/-- `str.splitlines()` restricted to `\n` boundaries (the decoded text has
its CRLF/CR already normalized to LF; no other Unicode line boundary occurs
in the inputs considered). -/
def splitLines (text : List Char) : List (List Char) :=
  if text = [] then [] else splitLinesAux text []
where
  splitLinesAux : List Char → List Char → List (List Char)
    | [], acc => [acc.reverse]
    | '\n' :: rest, acc => acc.reverse :: (if rest = [] then [] else splitLinesAux rest [])
    | c :: rest, acc => splitLinesAux rest (c :: acc)

/-- Step 4: the first non-blank line is CSV iff it has ≥ 3 commas. -/
def csvCheck (text : List Char) : Bool :=
  match (splitLines text).find? (fun l => !(pyStrip l).isEmpty) with
  | some l => 3 ≤ (pyStrip l).count ','
  | none => false

end Detector

/-! ## `rispy` model (external library)

The repository's own comments document the dependency's contract:
`app/parsers/ris.py` lines 50-52 — "rispy (which requires `TAG  - value`)"
— and the spec (§6) gives the strict grammar `XX  - value`.  The model
below implements that strict tokenizer on LF-normalized text: a record
starts at a `TY  - …` line, ordinary tags are two characters followed by
exactly two spaces, a dash and a space, a record is emitted at its
`ER  -` line, and anything else is ignored (unterminated records are
dropped, unknown tags and continuation lines do not occur in the inputs
considered). -/

namespace Rispy

/-- The subset of rispy's `TAG_KEY_MAPPING` the repository reads. -/
structure RisEntry where
  type_of_reference : Option (List Char) := none  -- TY
  title             : Option (List Char) := none  -- TI
  primary_title     : Option (List Char) := none  -- T1
  secondary_title   : Option (List Char) := none  -- T2
  abstract          : Option (List Char) := none  -- AB
  notes_abstract    : Option (List Char) := none  -- N2
  year              : Option (List Char) := none  -- PY
  publication_year  : Option (List Char) := none  -- Y1
  doi               : Option (List Char) := none  -- DO
  issn              : Option (List Char) := none  -- SN
  volume            : Option (List Char) := none  -- VL
  number            : Option (List Char) := none  -- IS
  start_page        : Option (List Char) := none  -- SP
  end_page          : Option (List Char) := none  -- EP
  accession_number  : Option (List Char) := none  -- AN
  pubmed_id         : Option (List Char) := none  -- ?? (not emitted by rispy's default mapping)
  authors           : List (List Char) := []      -- AU (one tag per author)
  first_authors     : List (List Char) := []      -- A1
  keywords          : List (List Char) := []      -- KW
  deriving DecidableEq, Inhabited, Repr

/-- Apply one strict `XX  - value` tag line to the entry in progress. -/
def applyTag (e : RisEntry) (t1 t2 : Char) (v : List Char) : RisEntry :=
  if t1 = 'T' ∧ t2 = 'I' then { e with title := some v }
  else if t1 = 'T' ∧ t2 = '1' then { e with primary_title := some v }
  else if t1 = 'T' ∧ t2 = '2' then { e with secondary_title := some v }
  else if t1 = 'A' ∧ t2 = 'B' then { e with abstract := some v }
  else if t1 = 'N' ∧ t2 = '2' then { e with notes_abstract := some v }
  else if t1 = 'P' ∧ t2 = 'Y' then { e with year := some v }
  else if t1 = 'Y' ∧ t2 = '1' then { e with publication_year := some v }
  else if t1 = 'D' ∧ t2 = 'O' then { e with doi := some v }
  else if t1 = 'S' ∧ t2 = 'N' then { e with issn := some v }
  else if t1 = 'V' ∧ t2 = 'L' then { e with volume := some v }
  else if t1 = 'I' ∧ t2 = 'S' then { e with number := some v }
  else if t1 = 'S' ∧ t2 = 'P' then { e with start_page := some v }
  else if t1 = 'E' ∧ t2 = 'P' then { e with end_page := some v }
  else if t1 = 'A' ∧ t2 = 'N' then { e with accession_number := some v }
  else if t1 = 'A' ∧ t2 = 'U' then { e with authors := e.authors ++ [v] }
  else if t1 = 'A' ∧ t2 = '1' then { e with first_authors := e.first_authors ++ [v] }
  else if t1 = 'K' ∧ t2 = 'W' then { e with keywords := e.keywords ++ [v] }
  else e  -- unknown tag: rispy stores it in `unknown_tag`; nothing below reads it

/-- Split a strict tag line `T₁T₂␣␣-␣value` into tag and value; `ER` lines
are recognized with any trailing text. -/
inductive TagLine where
  | ty (v : List Char)
  | er
  | tag (t1 t2 : Char) (v : List Char)
  | other
  deriving DecidableEq, Repr

def classifyLine (l : List Char) : TagLine :=
  match l with
  | 'E' :: 'R' :: ' ' :: ' ' :: '-' :: _ => .er
  | 'T' :: 'Y' :: ' ' :: ' ' :: '-' :: ' ' :: v => .ty v
  | t1 :: t2 :: ' ' :: ' ' :: '-' :: ' ' :: v =>
      if t1.isUpper ∧ (t2.isUpper ∨ t2.isDigit) then .tag t1 t2 v else .other
  | _ => .other

/-- `rispy.loads` on LF text: fold over the lines. -/
def loadsAux : Option RisEntry → List (List Char) → List RisEntry
  | _, [] => []      -- unterminated record: not emitted
  | cur, l :: rest =>
      match classifyLine l, cur with
      | .ty v, _ => loadsAux (some { type_of_reference := some v }) rest
      | .er, some e => e :: loadsAux none rest
      | .er, none => loadsAux none rest
      | .tag t1 t2 v, some e => loadsAux (some (applyTag e t1 t2 v)) rest
      | .tag _ _ _, none => loadsAux none rest
      | .other, cur => loadsAux cur rest

def loads (text : List Char) : List RisEntry :=
  loadsAux none (Detector.splitLines text)

end Rispy

namespace Detector

/-- `detect_format` (app/parsers/detector.py, lines 75-123); the last-resort
step 5 runs the rispy model on the full text (`rispy.loads` inside
`try/except`: an exception would take the same `unknown` path as an empty
result). -/
def detect_format (file : List Char) : String :=
  if file = [] then "unknown"
  else
    let text := file.take PROBE_BYTES
    if risSearch text then "ris"
    else if pmidSearch text then "medline"
    else if 3 ≤ countMedTags text then "medline"
    else if csvCheck text then "csv"
    else if !(Rispy.loads file).isEmpty then "ris"
    else "unknown"

/-- C6 — failing inputs: files whose only `TY` line has *zero* spaces
before the dash.  `_RIS_RE = ^TY\s+-` requires at least one whitespace
character (`\s+`), rispy's strict tokenizer requires `TY  - `, and no other
probe matches, so detection yields "unknown", not "ris"; the repository's
own test `test_detect_ris_zero_space_ty` (tests/test_import_parsing_robust.py,
line 73) expects "ris" for the second input.  One- and two-space spacings
are detected as claimed. -/
theorem detect_format_zero_space_ty_not_ris :
    detect_format "TY- JOUR\nER  - \n".toList = "unknown" ∧
    detect_format "TY-JOUR\nAU-Smith J\nTI-A title\nER-\n".toList = "unknown" ∧
    detect_format "TY - JOUR\nER  - \n".toList = "ris" ∧
    detect_format "TY  - JOUR\nER  - \n".toList = "ris" := by
  refine ⟨by decide, by decide, by decide, by decide⟩

end Detector

/-! ## Tolerant RIS parser (app/parsers/ris.py)

`parse_tolerant` splits the decoded text into record blocks on
`_ER_SPLIT_RE = \nER\s*-[^\n]*`, normalizes tag spacing with
`_TAG_SPACING_RE = ^([A-Z0-9]{2,4})[ \t]*-` → `\1  -`, re-appends an
`ER  - ` line and feeds each block to rispy, then `_normalize`s every
entry.  As in the Python, rispy exceptions would be collected as
`RecordError`s; the rispy model is total, so on the inputs evaluated the
`except` branch is never taken.  Unicode NFC normalization in
`_clean_text` is modelled as the identity (exact on ASCII). -/

namespace Ris

open Py

/-- `app/parsers/base.py` `RecordError`. -/
structure RecordError where
  index : Nat
  reason : String
  raw_snippet : List Char
  deriving DecidableEq, Repr

/-- `\s*-` after the `ER`: skip the whitespace run (`-` is not `\s`, so
greediness is irrelevant), then require the dash; returns the rest. -/
def skipWsThenDash : List Char → Option (List Char)
  | [] => none
  | c :: rest => if c = '-' then some rest else if isSpaceChar c then skipWsThenDash rest else none

/-- `[^\n]*` (greedy): drop up to, not including, the next newline. -/
def dropRestOfLine : List Char → List Char
  | [] => []
  | c :: rest => if c = '\n' then c :: rest else dropRestOfLine rest

/-- `\nER\s*-[^\n]*` matched right after a consumed `\n`: returns the
remaining text after the match. -/
def matchERTail : List Char → Option (List Char)
  | 'E' :: 'R' :: rest => (skipWsThenDash rest).map dropRestOfLine
  | _ => none

/-- `_ER_SPLIT_RE.split(text)`: leftmost non-overlapping matches, pieces
between them.  Fuel-driven (`fuel = text.length` covers every position). -/
def erSplitAux : Nat → List Char → List Char → List (List Char)
  | 0, acc, l => [acc.reverse ++ l]
  | _ + 1, acc, [] => [acc.reverse]
  | fuel + 1, acc, c :: rest =>
      if c = '\n' then
        match matchERTail rest with
        | some rest' => acc.reverse :: erSplitAux fuel [] rest'
        | none => erSplitAux fuel (c :: acc) rest
      else erSplitAux fuel (c :: acc) rest

def erSplit (text : List Char) : List (List Char) :=
  erSplitAux text.length [] text

/-- `TY\s+-` at the head of the suffix, returning the matched length. -/
def matchTYLen : List Char → Option Nat
  | 'T' :: 'Y' :: rest => wsPlusDashLen rest 2
  | _ => none
where
  wsPlusDashLen : List Char → Nat → Option Nat
    | [], _ => none
    | c :: rest, acc =>
        if c = '-' then none
        else if isSpaceChar c then afterWsLen rest (acc + 1) else none
  afterWsLen : List Char → Nat → Option Nat
    | [], _ => none
    | c :: rest, acc =>
        if c = '-' then some (acc + 1)
        else if isSpaceChar c then afterWsLen rest (acc + 1) else none

/-- `len(_TY_TAG_RE.findall(text))` with `_TY_TAG_RE = ^TY\s+-`
(MULTILINE): non-overlapping left-to-right matches at line starts (a
match ends at `-`, never at a newline). -/
def countTYAux : Nat → Bool → List Char → Nat
  | 0, _, _ => 0
  | _, _, [] => 0
  | fuel + 1, atStart, c :: rest =>
      if atStart then
        match matchTYLen (c :: rest) with
        | some n => 1 + countTYAux fuel false (List.drop n (c :: rest))
        | none => countTYAux fuel (c == '\n') rest
      else countTYAux fuel (c == '\n') rest

def countTY (text : List Char) : Nat :=
  countTYAux text.length true text

/-- `re.split(r"\n{2,}", ...)`: pieces separated by maximal runs of two or
more newlines. -/
def blankSplitAux : Nat → List Char → List Char → List (List Char)
  | 0, acc, l => [acc.reverse ++ l]
  | _ + 1, acc, [] => [acc.reverse]
  | fuel + 1, acc, c :: rest =>
      if c = '\n' ∧ rest.head? = some '\n' then
        acc.reverse :: blankSplitAux fuel [] (rest.dropWhile (fun d => d = '\n'))
      else blankSplitAux fuel (c :: acc) rest

def blankSplit (text : List Char) : List (List Char) :=
  blankSplitAux text.length [] text

/-- One line under `_TAG_SPACING_RE.sub(r"\1  -", ...)`: the pattern
`^([A-Z0-9]{2,4})[ \t]*-` matches iff the maximal leading `[A-Z0-9]` run
has length 2–4 (a shorter capture would be followed by another class
character, failing the `[ \t]*-` tail) and is followed by spaces/tabs and
a dash; the match is rewritten to `TAG  -`. -/
def tagSpacingLine (l : List Char) : List Char :=
  let run := l.takeWhile (fun c => c.isUpper ∨ c.isDigit)
  if 2 ≤ run.length ∧ run.length ≤ 4 then
    match (l.drop run.length).dropWhile (fun c => c = ' ' ∨ c = '\t') with
    | '-' :: tail => run ++ ' ' :: ' ' :: '-' :: tail
    | _ => l
  else l

/-- `_TAG_SPACING_RE.sub` over the whole block: `^` is MULTILINE and the
pattern cannot cross a newline, so the substitution acts line by line. -/
def tagSpacingSub (block : List Char) : List Char :=
  List.intercalate ['\n'] ((block.splitOn '\n').map tagSpacingLine)

/-- Python `x or y` on optional strings: empty and missing are falsy. -/
def pyOrS (a b : Option (List Char)) : Option (List Char) :=
  match a with
  | some s => if s = [] then b else some s
  | none => b

/-- `_clean_text`: NFC (identity on ASCII), `" ".join(value.split())`,
`None` for empty. -/
def clean_text (v : Option (List Char)) : Option (List Char) :=
  match v with
  | none => none
  | some s =>
      if s = [] then none
      else
        let s' := joinSpace (wsTokens s)
        if s' = [] then none else some s'

/-- `raw_data`: `dict(entry)` augmented with the `source_record_id` key. -/
structure RawData where
  entry : Rispy.RisEntry
  source_record_id : Option (List Char)
  deriving DecidableEq, Repr

/-- The normalized record dict produced by `_normalize`. -/
structure RisRecord where
  title : Option (List Char)
  abstract : Option (List Char)
  authors : Option (List (List Char))
  year : Option Int
  journal : Option (List Char)
  doi : Option (List Char)
  issn : Option (List Char)
  volume : Option (List Char)
  issue : Option (List Char)
  pages : Option (List Char)
  keywords : Option (List (List Char))
  source_format : String
  raw_data : RawData
  deriving DecidableEq, Repr

/-- `_extract_authors`. -/
def extract_authors (e : Rispy.RisEntry) : List (List Char) :=
  let authors := if e.authors ≠ [] then e.authors else e.first_authors
  authors.filterMap clean_text

def digitsToNat (l : List Char) : Nat :=
  l.foldl (fun acc c => 10 * acc + (c.toNat - 48)) 0

/-- `_extract_year`: first four digit characters of the raw year string,
as an int in 1000–2100 (`int("")` raises, giving `None`). -/
def extract_year_ris (e : Rispy.RisEntry) : Option Int :=
  match pyOrS e.year e.publication_year with
  | none => none
  | some raw =>
      let digits := (raw.filter Char.isDigit).take 4
      if digits = [] then none
      else
        let y : Int := (digitsToNat digits : Nat)
        if 1000 ≤ y ∧ y ≤ 2100 then some y else none

/-- `_extract_pages`. -/
def extract_pages (e : Rispy.RisEntry) : Option (List Char) :=
  let s := clean_text e.start_page
  let t := clean_text e.end_page
  match s, t with
  | some a, some b => some (a ++ '-' :: b)
  | _, _ => pyOrS s t

/-- `_extract_keywords`. -/
def extract_keywords (e : Rispy.RisEntry) : List (List Char) :=
  e.keywords.filterMap clean_text

/-- `_normalize(entry)` (ris.py lines 135-185).  `entry.get("title_secondary")`,
`entry.get("journal_name")`, `entry.get("alternate_title1")` and
`entry.get("periodical_name_full_format")` query keys the rispy model never
produces from the tags considered, hence the `none` arguments. -/
def _normalize (entry : Rispy.RisEntry) : RisRecord :=
  let source_record_id :=
    pyOrS (clean_text entry.accession_number) (clean_text entry.pubmed_id)
  let authors := extract_authors entry
  let keywords := extract_keywords entry
  let doi := clean_text entry.doi
  { title := clean_text (pyOrS entry.title (pyOrS entry.primary_title none))
    abstract := clean_text (pyOrS entry.abstract entry.notes_abstract)
    authors := if authors = [] then none else some authors
    year := extract_year_ris entry
    journal := clean_text (pyOrS none (pyOrS none (pyOrS entry.secondary_title none)))
    doi := doi.map (fun d => d.map pyLower)
    issn := clean_text entry.issn
    volume := clean_text entry.volume
    issue := clean_text entry.number
    pages := extract_pages entry
    keywords := if keywords = [] then none else some keywords
    source_format := "ris"
    raw_data := { entry := entry, source_record_id := source_record_id } }

/-- `app/parsers/base.py` `ParseResult`. -/
structure ParseResult where
  records : List RisRecord
  errors : List RecordError
  format_detected : String
  total_attempted : Nat
  valid_count : Nat
  failed_count : Nat
  warnings : List String
  deriving DecidableEq, Repr

/-- `parse_tolerant` (ris.py lines 71-132) on decoded LF text. -/
def parse_tolerant (text : List Char) : ParseResult :=
  let raw_blocks := erSplit text
  let blocks := (raw_blocks.map pyStrip).filter (fun b => !b.isEmpty)
  let blocks :=
    if blocks.length ≤ 1 ∧ 2 ≤ countTY text then
      (blankSplit (pyStrip text)).filterMap (fun b =>
        if !(pyStrip b).isEmpty && Detector.risSearch b then some (pyStrip b) else none)
    else blocks
  let records := blocks.foldl (fun acc block =>
    let block := tagSpacingSub block
    let block_with_er := block ++ ("\nER  - \n".toList)
    acc ++ (Rispy.loads block_with_er).map _normalize) []
  { records := records
    errors := []
    format_detected := "ris"
    total_attempted := blocks.length
    valid_count := records.length
    failed_count := 0
    warnings := [] }

/-- Truthiness of an optional string field (`bool(rec.get(...))`). -/
def truthyS : Option (List Char) → Bool
  | none => false
  | some s => !s.isEmpty

/-- `_is_useful_record` (app/parsers/base.py lines 102-117). -/
def _is_useful_record (r : RisRecord) : Bool :=
  truthyS r.title || truthyS r.doi || truthyS r.raw_data.source_record_id

/-- An RIS block with only an abstract: no title, no DOI, no AN/PMID. -/
def c1input : List Char := "TY  - JOUR\nAB  - orphan abstract\nER  - \n".toList

/-- C1 — failing input `c1input` (`"TY  - JOUR\nAB  - orphan abstract\nER  - \n"`):
`detect_format` routes it to the RIS tolerant parser (`parse_file`,
app/parsers/__init__.py lines 28-35, dispatches "ris" to
`ris.parse_tolerant`), which returns one record whose title, doi and
`raw_data["source_record_id"]` are all null — `_is_useful_record` is
false for it, yet it is retained with `valid_count = 1`.
`ris.parse_tolerant` never calls `_is_useful_record`, although base.py's
docstring describes the filter and `medline.parse_tolerant` (lines 75-79)
applies it. -/
theorem ris_parse_tolerant_keeps_useless_record :
    Detector.detect_format c1input = "ris" ∧
    (parse_tolerant c1input).records.length = 1 ∧
    (∀ r ∈ (parse_tolerant c1input).records, _is_useful_record r = false) ∧
    (parse_tolerant c1input).errors = [] ∧
    (parse_tolerant c1input).failed_count = 0 ∧
    (parse_tolerant c1input).valid_count = 1 := by
  refine ⟨by decide, by decide, by decide, by decide, by decide, by decide⟩

end Ris

/-! ## `OverlapDetector.detect` (app/utils/overlap_detector.py, lines 219-322)

Full three-pass pipeline over `OverlapRecord`s sharing one Union-Find.
Modelling notes, each exact for the claims at stake:
* dicts (`defaultdict(list)` buckets, `rec_map`, `groups`) are
  insertion-ordered association lists; `rec_map` lets the last record win
  on a duplicated key, as a dict comprehension does;
* `rapidfuzz.fuzz.token_set_ratio` is an external function, taken as a
  parameter `fz` returning its 0–100 score (the `ImportError` branch that
  skips pass 3 coincides with `fuzzy_enabled = False`);
* `find` carries fuel as elsewhere; `detect` passes `records.length`,
  enough for every chain in a forest over these ids;
* Python's `repr`/format fragments interpolated into `match_reason`
  strings are dropped (`!r` quoting, `:.2f` score); the claim never reads
  those strings;
* the tier-5 `DetectedCluster` constructed inside `_match_fuzzy_block`
  (lines 414-420) is assigned to a dead local and discarded, so emitted
  clusters always carry `similarity_score = None`;
* `clusters.sort` (stable, by minimal member-id string) is modelled by
  Mathlib's stable `insertionSort` under the code-point order on
  character lists. -/

namespace OverlapDetector

/-- `OverlapConfig` (lines 60-92). -/
structure OverlapConfig where
  selected_fields : List String
  fuzzy_enabled : Bool := false
  fuzzy_threshold : Rat := 93 / 100
  year_tolerance : Int := 0
  deriving DecidableEq, Repr

/-- `DetectedCluster` (lines 118-125). -/
structure DetectedCluster where
  records : List OverlapRecord
  tier : Nat
  match_basis : String
  match_reason : String
  similarity_score : Option Rat := none
  deriving DecidableEq, Inhabited, Repr

/-- Append `v` to the bucket of key `k`, creating the bucket at the end on
first use (`defaultdict(list)` under insertion order). -/
def bucketAdd {κ : Type} [DecidableEq κ] (bs : List (κ × List String)) (k : κ)
    (v : String) : List (κ × List String) :=
  if bs.any (fun p => p.1 = k) then
    bs.map (fun p => if p.1 = k then (p.1, p.2 ++ [v]) else p)
  else bs ++ [(k, [v])]

/-- `rec_map = {r.record_source_id: r for r in records}`: last occurrence
wins; keys looked up always come from `records`, so the default is
unreachable. -/
def recMap (records : List OverlapRecord) (i : String) : OverlapRecord :=
  (records.reverse.find? (fun r => r.record_source_id == i)).getD default

/-- `str.lower()` on ASCII data (`pyLower` per character). -/
def sLower (s : String) : String := ⟨s.toList.map Py.pyLower⟩

/-- `_year_match` (lines 324-327). -/
def _year_match (cfg : OverlapConfig) : Option Int → Option Int → Bool
  | some ya, some yb => decide (|ya - yb| ≤ cfg.year_tolerance)
  | _, _ => false

/-- `uf.union(first, other, tier, basis, reason)` over `members[1:]`. -/
def unionChain (uf : UFO) (fuel : Nat) (first : String) (others : List String)
    (tier : Nat) (basis reason : String) : UFO :=
  others.foldl (fun s o => s.union fuel first o tier basis reason) uf

/-- Pass 1 DOI buckets: `doi_buckets[r.doi.lower()].append(id)` for truthy
DOIs. -/
def doiBuckets (records : List OverlapRecord) : List (String × List String) :=
  records.foldl
    (fun bs r =>
      if truthy r.doi then bucketAdd bs (sLower (r.doi.getD "")) r.record_source_id
      else bs) []

/-- Pass 1 PMID buckets. -/
def pmidBuckets (records : List OverlapRecord) : List (String × List String) :=
  records.foldl
    (fun bs r =>
      if truthy r.pmid then bucketAdd bs (r.pmid.getD "") r.record_source_id
      else bs) []

/-- Pass 1, DOI half (lines 239-251). -/
def pass1Doi (uf : UFO) (fuel : Nat) (records : List OverlapRecord) : UFO :=
  (doiBuckets records).foldl
    (fun s p =>
      match p.2 with
      | first :: other :: others => unionChain s fuel first (other :: others) 1 "doi" ("Exact DOI match: " ++ p.1)
      | _ => s) uf

/-- Pass 1, PMID half (lines 253-265). -/
def pass1Pmid (uf : UFO) (fuel : Nat) (records : List OverlapRecord) : UFO :=
  (pmidBuckets records).foldl
    (fun s p =>
      match p.2 with
      | first :: other :: others => unionChain s fuel first (other :: others) 1 "pmid" ("Exact PMID match: " ++ p.1)
      | _ => s) uf

/-- Pass 2 buckets keyed `(title_prefix, year)`; year-less records join a
`(prefix, None)` bucket only when "year" is not a selected field
(lines 269-277). -/
def tyBuckets (cfg : OverlapConfig) (records : List OverlapRecord) :
    List ((String × Option Int) × List String) :=
  records.foldl
    (fun bs r =>
      if r.title_prefix ≠ "" ∧ r.year ≠ none then
        bucketAdd bs (r.title_prefix, r.year) r.record_source_id
      else if r.title_prefix ≠ "" then
        if "year" ∈ cfg.selected_fields then bs
        else bucketAdd bs (r.title_prefix, none) r.record_source_id
      else bs) []

/-- One pair of `_match_title_year_block` (lines 335-385): skip if already
same root or titles differ/empty or the year gate fails; otherwise union at
tier 2, 3 or 4. -/
def matchTitleYearPair (cfg : OverlapConfig) (uf : UFO) (fuel : Nat)
    (ra rb : OverlapRecord) : UFO :=
  let f1 := uf.find fuel ra.record_source_id
  let f2 := f1.1.find fuel rb.record_source_id
  let uf2 := f2.1
  if f1.2 = f2.2 then uf2
  else if ra.norm_title ≠ rb.norm_title ∨ ra.norm_title = "" then uf2
  else
    let use_year := "year" ∈ cfg.selected_fields
    let use_author := "first_author" ∈ cfg.selected_fields
    let use_volume := "volume" ∈ cfg.selected_fields
    let year_ok := (!decide use_year) || _year_match cfg ra.year rb.year
    if year_ok = false then uf2
    else
      let author_ok := (!decide use_author) ||
        (ra.first_author.isSome && decide (ra.first_author = rb.first_author))
      let volume_ok := (!decide use_volume) || ra.norm_volume.isNone ||
        rb.norm_volume.isNone || decide (ra.norm_volume = rb.norm_volume)
      if author_ok && volume_ok then
        uf2.union fuel ra.record_source_id rb.record_source_id 2
          "title_year_author_volume"
          ("Same title, year, first author, volume: " ++ ra.norm_title)
      else if author_ok then
        uf2.union fuel ra.record_source_id rb.record_source_id 3
          "title_year_author" ("Same title, year, first author: " ++ ra.norm_title)
      else
        uf2.union fuel ra.record_source_id rb.record_source_id 4
          "title_year" ("Same title and year: " ++ ra.norm_title)

/-- `_match_title_year_block` over all index-ordered pairs. -/
def matchTitleYearBlock (cfg : OverlapConfig) (uf : UFO) (fuel : Nat)
    (brs : List OverlapRecord) : UFO :=
  (OverlapService.allPairs brs).foldl
    (fun s pr => matchTitleYearPair cfg s fuel pr.1 pr.2) uf

/-- Pass 2 (lines 268-283). -/
def pass2 (cfg : OverlapConfig) (uf : UFO) (fuel : Nat)
    (records : List OverlapRecord) : UFO :=
  (tyBuckets cfg records).foldl
    (fun s p =>
      if p.2.length < 2 then s
      else matchTitleYearBlock cfg s fuel (p.2.map (recMap records))) uf

/-- Pass 3 buckets keyed `title_prefix` (lines 293-296). -/
def prefixBuckets (records : List OverlapRecord) : List (String × List String) :=
  records.foldl
    (fun bs r =>
      if r.title_prefix ≠ "" then bucketAdd bs r.title_prefix r.record_source_id
      else bs) []

/-- One pair of `_match_fuzzy_block` (lines 392-426): year gate only when
both years are present, normalized `token_set_ratio` score against the
threshold, then at least one shared author surname; union at tier 5. -/
def matchFuzzyPair (cfg : OverlapConfig) (fz : String → String → Rat)
    (uf : UFO) (fuel : Nat) (ra rb : OverlapRecord) : UFO :=
  let f1 := uf.find fuel ra.record_source_id
  let f2 := f1.1.find fuel rb.record_source_id
  let uf2 := f2.1
  if f1.2 = f2.2 then uf2
  else if ra.norm_title = "" ∨ rb.norm_title = "" then uf2
  else if (match ra.year, rb.year with
           | some ya, some yb => decide (cfg.year_tolerance < |ya - yb|)
           | _, _ => false) then uf2
  else if fz ra.norm_title rb.norm_title / 100 < cfg.fuzzy_threshold then uf2
  else if !(ra.all_author_lasts.any (fun x => rb.all_author_lasts.contains x)) then uf2
  else
    uf2.union fuel ra.record_source_id rb.record_source_id 5
      "fuzzy_title_author" "Fuzzy title similarity"

def matchFuzzyBlock (cfg : OverlapConfig) (fz : String → String → Rat)
    (uf : UFO) (fuel : Nat) (brs : List OverlapRecord) : UFO :=
  (OverlapService.allPairs brs).foldl
    (fun s pr => matchFuzzyPair cfg fz s fuel pr.1 pr.2) uf

/-- Pass 3 (lines 286-302). -/
def pass3 (cfg : OverlapConfig) (fz : String → String → Rat) (uf : UFO)
    (fuel : Nat) (records : List OverlapRecord) : UFO :=
  (prefixBuckets records).foldl
    (fun s p =>
      if p.2.length < 2 then s
      else matchFuzzyBlock cfg fz s fuel (p.2.map (recMap records))) uf

/-- First-occurrence deduplication: the key list of `{i: i for i in ids}`. -/
def firstDedupAux : List String → List String → List String
  | _, [] => []
  | seen, x :: xs =>
      if x ∈ seen then firstDedupAux seen xs
      else x :: firstDedupAux (x :: seen) xs

def firstDedup (l : List String) : List String := firstDedupAux [] l

/-- `groups` (lines 204-209): fold over the parent-dict keys, appending
each id under its (freshly `find`-compressed) root. -/
def groupsAux (fuel : Nat) :
    UFO → List String → List (String × List String) →
      UFO × List (String × List String)
  | uf, [], gs => (uf, gs)
  | uf, x :: xs, gs =>
      let f := uf.find fuel x
      groupsAux fuel f.1 xs (bucketAdd gs f.2 x)

def UFO.groups (uf : UFO) (fuel : Nat) (ids : List String) :
    UFO × List (String × List String) :=
  groupsAux fuel uf ids []

/-- The Union-Find after all three (conditional) passes. -/
def detectUF (cfg : OverlapConfig) (fz : String → String → Rat)
    (records : List OverlapRecord) (fuel : Nat) : UFO :=
  let uf := initUFO
  let uf := if "doi" ∈ cfg.selected_fields then pass1Doi uf fuel records else uf
  let uf := if "pmid" ∈ cfg.selected_fields then pass1Pmid uf fuel records else uf
  let uf := if "title" ∈ cfg.selected_fields then pass2 cfg uf fuel records else uf
  if cfg.fuzzy_enabled ∧ "title" ∈ cfg.selected_fields then
    pass3 cfg fz uf fuel records
  else uf

def groupsResult (cfg : OverlapConfig) (fz : String → String → Rat)
    (records : List OverlapRecord) : UFO × List (String × List String) :=
  (detectUF cfg fz records records.length).groups records.length
    (firstDedup (records.map (fun r => r.record_source_id)))

/-- The collection step for one group (lines 307-318): groups with fewer
than two members are skipped; the rest become `DetectedCluster`s with the
root's `tier_info`. -/
def collectCluster (records : List OverlapRecord) (uf : UFO)
    (p : String × List String) : Option DetectedCluster :=
  if p.2.length < 2 then none
  else
    some { records := p.2.map (recMap records)
           tier := (uf.tier_info p.1).1
           match_basis := (uf.tier_info p.1).2.1
           match_reason := (uf.tier_info p.1).2.2
           similarity_score := none }

def collected (cfg : OverlapConfig) (fz : String → String → Rat)
    (records : List OverlapRecord) : List DetectedCluster :=
  (groupsResult cfg fz records).2.filterMap
    (collectCluster records (groupsResult cfg fz records).1)

/-- Strict code-point order on character lists (Python string `<`). -/
def listLt : List Char → List Char → Bool
  | [], [] => false
  | [], _ :: _ => true
  | _ :: _, [] => false
  | a :: as, b :: bs => if a = b then listLt as bs else decide (a < b)

def listLe (a b : List Char) : Bool := !listLt b a

/-- `min(str(r.record_source_id) for r in c.records)`: first minimum;
`min()` over an empty sequence raises, and emitted clusters always have
members, so the `[]` arm is unreachable. -/
def clusterKey (c : DetectedCluster) : List Char :=
  match c.records.map (fun r => r.record_source_id.toList) with
  | [] => []
  | x :: xs => xs.foldl (fun m y => if listLt y m then y else m) x

/-- `detect` (lines 225-322). -/
def detect (cfg : OverlapConfig) (fz : String → String → Rat)
    (records : List OverlapRecord) : List DetectedCluster :=
  if records.length < 2 then []
  else
    (collected cfg fz records).insertionSort
      (fun a b => listLe (clusterKey a) (clusterKey b) = true)

theorem collectCluster_length {records : List OverlapRecord} {uf : UFO}
    {p : String × List String} {c : DetectedCluster}
    (h : collectCluster records uf p = some c) : 2 ≤ c.records.length := by
  unfold collectCluster at h
  by_cases hlt : p.2.length < 2
  · rw [if_pos hlt] at h
    exact absurd h (by simp)
  · rw [if_neg hlt] at h
    have he := Option.some.inj h
    rw [← he]
    simpa using Nat.le_of_not_lt hlt

/-- C10 — every cluster returned by `detect` has at least two member
records (the collection step skips smaller groups), and fewer than two
input records yield the empty result (the initial guard). -/
theorem detect_clusters_at_least_two_members (cfg : OverlapConfig)
    (fz : String → String → Rat) (records : List OverlapRecord) :
    (∀ c ∈ detect cfg fz records, 2 ≤ c.records.length) ∧
    (records.length < 2 → detect cfg fz records = []) := by
  constructor
  · intro c hc
    unfold detect at hc
    by_cases h2 : records.length < 2
    · rw [if_pos h2] at hc
      exact absurd hc (List.not_mem_nil c)
    · rw [if_neg h2] at hc
      have hc' : c ∈ collected cfg fz records :=
        (List.perm_insertionSort _ _).mem_iff.mp hc
      rw [collected, List.mem_filterMap] at hc'
      obtain ⟨p, _, hcol⟩ := hc'
      exact collectCluster_length hcol
  · intro h2
    unfold detect
    rw [if_pos h2]

def c10cfg : OverlapConfig := { selected_fields := ["doi"] }

def c10fz : String → String → Rat := fun _ _ => 0

def c10recA : OverlapRecord :=
  { record_source_id := "aaa", source_id := "s1"
    doi := some "10.1/X", pmid := none
    norm_title := "t", title_prefix := "t", year := none
    first_author := none, all_author_lasts := [], norm_volume := none
    raw_pages := none, raw_journal := none, abstract_len := 0 }

def c10recB : OverlapRecord :=
  { record_source_id := "bbb", source_id := "s2"
    doi := some "10.1/x", pmid := none
    norm_title := "t", title_prefix := "t", year := none
    first_author := none, all_author_lasts := [], norm_volume := none
    raw_pages := none, raw_journal := none, abstract_len := 0 }

/-- The cluster `detect` produces for the two same-DOI records. -/
def c10cluster : DetectedCluster :=
  { records := [c10recA, c10recB], tier := 1, match_basis := "doi"
    match_reason := "Exact DOI match: 10.1/x", similarity_score := none }

/-- C10 witness: on two records sharing a DOI (up to case), `detect`
returns the expected tier-1 cluster, whose size bound follows from the
theorem; a single record yields `[]` by the theorem's second clause. -/
theorem detect_clusters_at_least_two_members_witness :
    c10cluster ∈ detect c10cfg c10fz [c10recA, c10recB] ∧
    2 ≤ c10cluster.records.length ∧
    detect c10cfg c10fz [c10recA] = [] :=
  ⟨by decide,
   (detect_clusters_at_least_two_members c10cfg c10fz [c10recA, c10recB]).1
     c10cluster (by decide),
   (detect_clusters_at_least_two_members c10cfg c10fz [c10recA]).2 (by decide)⟩

end OverlapDetector

end EvidencePlatform
